import Mathlib

/-!
# SAT-Collisions: a verification development

A shallow embedding of `main.cpp` (convex polygon bodies and the separating
axis collision detector) over exact arithmetic in a linearly ordered field `K`:
the rationals when the program is evaluated on concrete inputs, the reals when
the library routines are the true square root, cosine and sine.

* `float` values are elements of `K`; the non-finite vector produced by
  `normalize` on a zero length is `none`.
* `std::sqrtf`, `std::cosf`, `std::sinf` are library routines: they are the
  fields of `FloatLib`, a parameter of every definition that calls them.
* The angle of the generation loop is a `float` that is rounded at every
  `theta += step`: the rounded sum is the field `addf` of `FloatLib`.
* `std::numeric_limits<float>::max()` is the constant `FLT_MAX`,
  `std::numbers::pi` is the constant `pi`.
* `VectorSet` (an unordered set) is a duplicate-free list; the order of the
  list is the iteration order of the set.
-/

namespace SAT

/-! ## Vectors (sf::Vector2f) -/

/-- Value type `sf::Vector2f`. -/
structure Vec2 (K : Type) where
  x : K
  y : K
deriving DecidableEq

variable {K : Type} [LinearOrderedField K]

namespace Vec2

/-- Component-wise difference (`operator-`). -/
def sub (a b : Vec2 K) : Vec2 K := ⟨a.x - b.x, a.y - b.y⟩

/-- Product with a scalar (`operator*`). -/
def smul (a : Vec2 K) (k : K) : Vec2 K := ⟨a.x * k, a.y * k⟩

/-- Quotient by a scalar (`operator/`). -/
def sdiv (a : Vec2 K) (k : K) : Vec2 K := ⟨a.x / k, a.y / k⟩

end Vec2

/-- The library routines the program calls on floats, and the one float
operation whose rounding the program itself guards against: `addf a b` is the
value a `float` variable holds after `a += b`, the sum rounded to `float`. -/
structure FloatLib (K : Type) where
  sqrtf : K → K
  cosf : K → K
  sinf : K → K
  addf : K → K → K

/-- The constant `std::numeric_limits<float>::max()`. -/
def FLT_MAX : K := 340282346638528859811704183484516925440

/-- The constant `std::numbers::pi` (a double). -/
def pi : K := 3141592653589793 / 1000000000000000

/-! ## Geometry primitives (main.cpp 24-30) -/

/-- Source `length`: `sqrtf(x*x + y*y)`. -/
def length (lib : FloatLib K) (vec : Vec2 K) : K :=
  lib.sqrtf (vec.x * vec.x + vec.y * vec.y)

/-- Source `normalize`: `vec / length(vec)`. A zero length makes the quotient
non-finite; that result is `none`. -/
def normalize (lib : FloatLib K) (vec : Vec2 K) : Option (Vec2 K) :=
  if length lib vec = 0 then none else some (vec.sdiv (length lib vec))

/-- Source `perpendicular`: `(-y, x)`. -/
def perpendicular (vec : Vec2 K) : Vec2 K := ⟨-vec.y, vec.x⟩

/-- Source `dot`. -/
def dot (left right : Vec2 K) : K := left.x * right.x + left.y * right.y

/-! ## The polygon body (main.cpp 34-107) -/

/-- An `sf::Color` (red, green, blue). -/
structure Color where
  r : ℕ
  g : ℕ
  b : ℕ
deriving DecidableEq

/-- An `sf::Vertex`: a position and a colour. -/
structure Vertex (K : Type) where
  position : Vec2 K
  color : Color
deriving DecidableEq

/-- Class `Polygon`: the stored outline, the kinematic state, the colour, and
the position and rotation (degrees) of the `sf::Transformable` base; origin and
scale keep their defaults and are left out. -/
structure Polygon (K : Type) where
  m_vertecies : List (Vertex K)
  m_velocity : Vec2 K
  m_angularVelocity : K
  m_color : Color
  position : Vec2 K
  rotation : K
deriving DecidableEq

/-- The generation loop of the constructor and of `reset`:
`for (theta = 0; theta < 2*pi - 0.01; theta += step) append(...)`, with
`theta` a `float` that is rounded at every `theta += step`.
`step = none` is the infinite step `2*pi/0`. The fuel bounds the number of
iterations. -/
def genLoop (lib : FloatLib K) (radius : K) (color : Color) (step : Option K) :
    ℕ → K → List (Vertex K)
  | 0, _ => []
  | fuel + 1, theta =>
    if theta < 2 * pi - 1 / 100 then
      ⟨(Vec2.mk (lib.cosf theta) (-(lib.sinf theta))).smul radius, color⟩ ::
        (match step with
         | none => []
         | some s => genLoop lib radius color step fuel (lib.addf theta s))
    else []

/-- The angle step `2*pi / numVertecies`; infinite for a zero count. -/
def thetaStep (numVertecies : ℕ) : Option K :=
  if numVertecies = 0 then none else some (2 * pi / numVertecies)

/-- The outline both `Polygon::Polygon` and `Polygon::reset` store: the
generated points followed by a copy of element 0. The loop body runs at most
`numVertecies` times (once for a zero count), so that fuel is enough. -/
def outline (lib : FloatLib K) (radius : K) (numVertecies : ℕ) (color : Color) :
    List (Vertex K) :=
  let pts := genLoop lib radius color (thetaStep numVertecies) (numVertecies + 1) 0
  match pts with
  | [] => []
  | v :: _ => pts ++ [v]

/-- Source `Polygon::Polygon`; a fresh `sf::Transformable` sits at the origin
with rotation 0. -/
def Polygon.new (lib : FloatLib K) (radius : K) (numVertecies : ℕ) (color : Color) :
    Polygon K :=
  { m_vertecies := outline lib radius numVertecies color
    m_velocity := ⟨0, 0⟩
    m_angularVelocity := 0
    m_color := color
    position := ⟨0, 0⟩
    rotation := 0 }

/-- Source `Polygon::reset`. -/
def Polygon.reset (lib : FloatLib K) (P : Polygon K) (radius : K) (numVertecies : ℕ) :
    Polygon K :=
  { P with m_vertecies := outline lib radius numVertecies P.m_color }

/-- Source `Polygon::getRadius`: the length of the position of element 0 of the
outline (`none` when the outline is empty, where the read is out of bounds). -/
def Polygon.getRadius (lib : FloatLib K) (P : Polygon K) : Option K :=
  P.m_vertecies.head?.map (fun v => length lib v.position)

/-- Library call `setPosition`. -/
def Polygon.setPosition (P : Polygon K) (p : Vec2 K) : Polygon K := { P with position := p }

/-- Library call `getTransform().transformPoint` for origin (0,0) and scale
(1,1): with `a = -rotation*pi/180`, the point `(x, y)` goes to
`(cos a * x + sin a * y + tx, -sin a * x + cos a * y + ty)`. -/
def Polygon.transformPoint (lib : FloatLib K) (P : Polygon K) (p : Vec2 K) : Vec2 K :=
  let a := -P.rotation * pi / 180
  ⟨lib.cosf a * p.x + lib.sinf a * p.y + P.position.x,
   -(lib.sinf a) * p.x + lib.cosf a * p.y + P.position.y⟩

/-- A `VectorSet`: the list of its elements in iteration order. -/
abbrev VectorSet (K : Type) := List (Option (Vec2 K))

/-- Insertion into the set: an element already present is not added again; a
non-finite vector compares unequal to everything, so it is always added. -/
def VectorSet.insert (s : VectorSet K) (a : Option (Vec2 K)) : VectorSet K :=
  match a with
  | none => s ++ [none]
  | some v => if some v ∈ s then s else s ++ [some v]

/-- The world-space outline: every stored position through the transform. -/
def Polygon.worldOutline (lib : FloatLib K) (P : Polygon K) : List (Vec2 K) :=
  P.m_vertecies.map (fun v => P.transformPoint lib v.position)

/-- The loop of `getVertexData` over the edges `(w[i], w[i+1])` of a world
outline `w`, for `i` from 0 to `count - 2`. (On an empty outline `count - 1`
wraps around in the source and the loop reads past the array; no constructed
body has an empty outline, and the loop here does nothing on it.) -/
def vertexDataLoop (lib : FloatLib K) :
    List (Vec2 K) → VectorSet K → List (Vec2 K) → VectorSet K × List (Vec2 K)
  | vertex1 :: vertex2 :: rest, normals, vertecies =>
    vertexDataLoop lib (vertex2 :: rest)
      (normals.insert (normalize lib (perpendicular (vertex2.sub vertex1))))
      (vertecies ++ [vertex1])
  | _, normals, vertecies => (normals, vertecies)

/-- Source `Polygon::getVertexData`. -/
def Polygon.getVertexData (lib : FloatLib K) (P : Polygon K) (normals : VectorSet K)
    (vertecies : List (Vec2 K)) : VectorSet K × List (Vec2 K) :=
  vertexDataLoop lib (P.worldOutline lib) normals vertecies

/-- Source `Polygon::getNumVertecies`: `getVertexCount() - 1` on `size_t`, which
wraps around on an empty array. -/
def Polygon.getNumVertecies (P : Polygon K) : ℕ :=
  (P.m_vertecies.length + 2 ^ 64 - 1) % 2 ^ 64

/-- The test of one edge in `contains`: the span condition on the y
coordinates and, only when it holds (the operator is short-circuit), the
comparison of `point.x` with the crossing abscissa. -/
def crossesRight (point vc vn : Vec2 K) : Prop :=
  ((vc.y ≥ point.y ∧ vn.y < point.y) ∨ (vc.y < point.y ∧ vn.y ≥ point.y)) ∧
    point.x < (vn.x - vc.x) * (point.y - vc.y) / (vn.y - vc.y) + vc.x

instance (point vc vn : Vec2 K) : Decidable (crossesRight point vc vn) := by
  unfold crossesRight; infer_instance

/-- The loop of `contains` over the edges `(w[i], w[i+1])` of a world outline
`w`, for `i` from 0 to `count - 2`, toggling the flag on each edge that passes
the test. -/
def containsLoop (point : Vec2 K) : List (Vec2 K) → Bool → Bool
  | vc :: vn :: rest, pointInsidePolygon =>
    containsLoop point (vn :: rest)
      (if crossesRight point vc vn then !pointInsidePolygon else pointInsidePolygon)
  | _, pointInsidePolygon => pointInsidePolygon

/-- Source `Polygon::contains`. -/
def Polygon.contains (lib : FloatLib K) (P : Polygon K) (point : Vec2 K) : Bool :=
  containsLoop point (P.worldOutline lib) false

/-- A division that reports a zero divisor. -/
def checkedDiv (a b : K) : Option K := if b = 0 then none else some (a / b)

/-- The test of one edge in `contains` with the division checked: `none` when
the quotient is evaluated with a zero divisor. -/
def crossesRightChecked (point vc vn : Vec2 K) : Option Bool :=
  if (vc.y ≥ point.y ∧ vn.y < point.y) ∨ (vc.y < point.y ∧ vn.y ≥ point.y) then
    (checkedDiv ((vn.x - vc.x) * (point.y - vc.y)) (vn.y - vc.y)).map
      (fun q => decide (point.x < q + vc.x))
  else some false

/-- The loop of `contains` with every array read and every division checked:
`for (i = 0; i < numV; ++i)` reading elements `i` and `i + 1` of the outline.
The result is `none` when a read is out of bounds or a divisor is zero. The
fuel bounds the number of iterations. -/
def containsChecked (lib : FloatLib K) (P : Polygon K) (point : Vec2 K) (numV : ℕ) :
    ℕ → ℕ → Bool → Option Bool
  | 0, _, pointInsidePolygon => some pointInsidePolygon
  | fuel + 1, i, pointInsidePolygon =>
    if i < numV then
      match P.m_vertecies.get? i, P.m_vertecies.get? (i + 1) with
      | some a, some b =>
        match crossesRightChecked point (P.transformPoint lib a.position)
            (P.transformPoint lib b.position) with
        | some true => containsChecked lib P point numV fuel (i + 1) (!pointInsidePolygon)
        | some false => containsChecked lib P point numV fuel (i + 1) pointInsidePolygon
        | none => none
      | _, _ => none
    else some pointInsidePolygon

/-! ## The detector (main.cpp 111-149) -/

/-- The two inner loops of `detectCollision` for one body: the running
minimum and maximum of the projections, from `FLT_MAX` and `-FLT_MAX`. -/
def projRange (verts : List (Vec2 K)) (normal : Vec2 K) : K × K :=
  verts.foldl
    (fun acc v =>
      let projection := dot v normal
      (if projection < acc.1 then projection else acc.1,
       if projection > acc.2 then projection else acc.2))
    (FLT_MAX, -FLT_MAX)

/-- The value `min(|leftMax - rightMin|, |rightMax - leftMin|)` of one axis. -/
def penetrationOn (leftV rightV : List (Vec2 K)) (normal : Vec2 K) : K :=
  min |(projRange leftV normal).2 - (projRange rightV normal).1|
      |(projRange rightV normal).2 - (projRange leftV normal).1|

/-- The overlap test `max(leftMin, rightMin) <= min(leftMax, rightMax)`. -/
def overlapOn (leftV rightV : List (Vec2 K)) (normal : Vec2 K) : Prop :=
  max (projRange leftV normal).1 (projRange rightV normal).1 ≤
    min (projRange leftV normal).2 (projRange rightV normal).2

instance (leftV rightV : List (Vec2 K)) (normal : Vec2 K) :
    Decidable (overlapOn leftV rightV normal) := by
  unfold overlapOn; infer_instance

/-- The value `(rightMin > leftMin) ? normal : normal * -1`. -/
def signedAxis (leftV rightV : List (Vec2 K)) (normal : Vec2 K) : Vec2 K :=
  if (projRange rightV normal).1 > (projRange leftV normal).1 then normal
  else normal.smul (-1)

/-- The result of `detectCollision`: the returned flag and the two
out-parameters as they stand on return. -/
structure Detection (K : Type) where
  overlaps : Bool
  minPenetration : K
  penetrationAxis : Vec2 K
deriving DecidableEq

/-- The loop of `detectCollision` over the axis set. On a non-finite axis every
projection is non-finite, every comparison with it is false, the four bounds
keep their initial values and the overlap test `FLT_MAX <= -FLT_MAX` fails. -/
def axisLoop (leftV rightV : List (Vec2 K)) :
    List (Option (Vec2 K)) → K → Vec2 K → Detection K
  | [], minPenetration, penetrationAxis => ⟨true, minPenetration, penetrationAxis⟩
  | none :: _, minPenetration, penetrationAxis =>
    ⟨false, minPenetration, penetrationAxis⟩
  | some normal :: rest, minPenetration, penetrationAxis =>
    if overlapOn leftV rightV normal then
      if penetrationOn leftV rightV normal < minPenetration then
        axisLoop leftV rightV rest (penetrationOn leftV rightV normal)
          (signedAxis leftV rightV normal)
      else axisLoop leftV rightV rest minPenetration penetrationAxis
    else ⟨false, minPenetration, penetrationAxis⟩

/-- The axis set `detectCollision` builds: the normals of `left`, then those of
`right`, inserted into one set. -/
def candidateAxes (lib : FloatLib K) (left right : Polygon K) : VectorSet K :=
  (right.getVertexData lib (left.getVertexData lib [] []).1 []).1

/-- The vertex array `getVertexData` fills for one body. -/
def worldVertices (lib : FloatLib K) (P : Polygon K) : List (Vec2 K) :=
  (P.getVertexData lib [] []).2

/-- Source `detectCollision`. `penetrationAxis` is the value the caller's
variable holds on entry; `minPenetration` is overwritten at once. -/
def detectCollision (lib : FloatLib K) (left right : Polygon K) (penetrationAxis : Vec2 K) :
    Detection K :=
  axisLoop (worldVertices lib left) (worldVertices lib right)
    (candidateAxes lib left right) FLT_MAX penetrationAxis

/-- Square root: zero at zero, rounded to six decimals at the arguments the
evaluations below visit, and the first Newton step from 1 elsewhere. -/
def refSqrt (q : ℚ) : ℚ :=
  if q ≤ 0 then 0
  else if q = 4 then 2
  else if q = 100 then 10
  else if q = 400 then 20
  else if q = 200 then 14142136 / 1000000
  else if q = 11999296 / 1000000 then 3464 / 1000
  else if q = 11999824 / 1000000 then 3464076 / 1000000
  else (q + 1) / 2

/-- Cosine at the multiples of a quarter and of a third of a turn that
outline generation visits (1 elsewhere). -/
def refCos (t : ℚ) : ℚ :=
  if t = pi / 2 ∨ t = 3 * (pi / 2) then 0
  else if t = pi then -1
  else if t = 2 * pi / 3 ∨ t = 2 * pi / 3 + 2 * pi / 3 then -1 / 2
  else 1

/-- Sine at the same angles (0 elsewhere); the sine of a third of a turn is
rounded to three decimals. -/
def refSin (t : ℚ) : ℚ :=
  if t = pi / 2 then 1
  else if t = 3 * (pi / 2) then -1
  else if t = 2 * pi / 3 then 866 / 1000
  else if t = 2 * pi / 3 + 2 * pi / 3 then -866 / 1000
  else 0

/-- The library used to evaluate the program on concrete inputs; its addition
is exact. -/
def refLib : FloatLib ℚ := ⟨refSqrt, refCos, refSin, fun a b => a + b⟩

/-- The colour white, the default of the constructor. -/
def white : Color := ⟨255, 255, 255⟩

/-! ## Specification-side notions -/

/-- The bounds `(min, max)` the detector holds for one body after its
projection loop on an axis of the set: those of `projRange` on a finite axis,
the untouched initial values on a non-finite one. -/
def axisRange (verts : List (Vec2 ℚ)) : Option (Vec2 ℚ) → ℚ × ℚ
  | none => (FLT_MAX, -FLT_MAX)
  | some normal => projRange verts normal

/-- An axis separates: `max(minA, minB) > min(maxA, maxB)`. -/
def separatedOn (leftV rightV : List (Vec2 ℚ)) (a : Option (Vec2 ℚ)) : Prop :=
  max (axisRange leftV a).1 (axisRange rightV a).1 >
    min (axisRange leftV a).2 (axisRange rightV a).2

/-- One step of the projection loop. -/
def rangeStep (n : Vec2 ℚ) (acc : ℚ × ℚ) (v : Vec2 ℚ) : ℚ × ℚ :=
  (if dot v n < acc.1 then dot v n else acc.1, if dot v n > acc.2 then dot v n else acc.2)


/-! ## Concrete bodies -/

/-- The 4-gon of radius 10 built by the constructor and placed at `p`. -/
def sqAt (p : Vec2 ℚ) : Polygon ℚ := (Polygon.new refLib 10 4 white).setPosition p

/-- The four edge normals of `sqAt p`, in edge order. -/
def sqAxes : VectorSet ℚ :=
  [some ⟨1250000 / 1767767, -1250000 / 1767767⟩, some ⟨-1250000 / 1767767, -1250000 / 1767767⟩,
   some ⟨-1250000 / 1767767, 1250000 / 1767767⟩, some ⟨1250000 / 1767767, 1250000 / 1767767⟩]

/-- The four world-space vertices of `sqAt p`. -/
def sqVerts (p : Vec2 ℚ) : List (Vec2 ℚ) :=
  [⟨10 + p.x, 0 + p.y⟩, ⟨0 + p.x, -10 + p.y⟩, ⟨-10 + p.x, 0 + p.y⟩, ⟨0 + p.x, 10 + p.y⟩]

/-- The body the constructor builds for a vertex count of 1 and radius 10:
its outline is the point (10, 0) stored twice. -/
def pointBody : Polygon ℚ := (Polygon.new refLib 10 1 white).setPosition ⟨0, 0⟩

/-- The normals of the edges of a world outline, in edge order: what
`getVertexData` inserts into the set. -/
def edgeNormals (lib : FloatLib K) : List (Vec2 K) → List (Option (Vec2 K))
  | vertex1 :: vertex2 :: rest =>
    normalize lib (perpendicular (vertex2.sub vertex1)) :: edgeNormals lib (vertex2 :: rest)
  | _ => []

/-- The 3-gon of radius 2 built by the constructor, left at the origin. -/
def triBody : Polygon ℚ := (Polygon.new refLib 2 3 white).setPosition ⟨0, 0⟩

/-! ## The exact library and the shape of a generated outline -/

theorem projRange_eq_foldl (vs : List (Vec2 ℚ)) (n : Vec2 ℚ) :
    projRange vs n = vs.foldl (rangeStep n) (FLT_MAX, -FLT_MAX) := rfl

theorem rangeStep_fst (n : Vec2 ℚ) (acc : ℚ × ℚ) (v : Vec2 ℚ) :
    (rangeStep n acc v).1 = min acc.1 (dot v n) := by
  unfold rangeStep
  by_cases h : dot v n < acc.1
  · simp [h, min_eq_right h.le]
  · simp [h, min_eq_left (not_lt.mp h)]

theorem rangeStep_snd (n : Vec2 ℚ) (acc : ℚ × ℚ) (v : Vec2 ℚ) :
    (rangeStep n acc v).2 = max acc.2 (dot v n) := by
  unfold rangeStep
  by_cases h : dot v n > acc.2
  · simp [h, max_eq_right (le_of_lt h)]
  · simp [h, max_eq_left (not_lt.mp h)]

theorem foldl_rangeStep_fst (n : Vec2 ℚ) (vs : List (Vec2 ℚ)) (acc : ℚ × ℚ) :
    (vs.foldl (rangeStep n) acc).1 = vs.foldl (fun m v => min m (dot v n)) acc.1 := by
  induction vs generalizing acc with
  | nil => rfl
  | cons v vs ih => simp only [List.foldl_cons]; rw [ih, rangeStep_fst]

theorem foldl_rangeStep_snd (n : Vec2 ℚ) (vs : List (Vec2 ℚ)) (acc : ℚ × ℚ) :
    (vs.foldl (rangeStep n) acc).2 = vs.foldl (fun m v => max m (dot v n)) acc.2 := by
  induction vs generalizing acc with
  | nil => rfl
  | cons v vs ih => simp only [List.foldl_cons]; rw [ih, rangeStep_snd]

theorem foldl_min_le (f : Vec2 ℚ → ℚ) (vs : List (Vec2 ℚ)) (a : ℚ) :
    vs.foldl (fun m v => min m (f v)) a ≤ a ∧
      ∀ v ∈ vs, vs.foldl (fun m v => min m (f v)) a ≤ f v := by
  induction vs generalizing a with
  | nil => simp
  | cons w vs ih =>
    simp only [List.foldl_cons, List.mem_cons]
    refine ⟨(ih _).1.trans (min_le_left _ _), ?_⟩
    rintro v (rfl | hv)
    · exact (ih _).1.trans (min_le_right _ _)
    · exact (ih _).2 v hv

theorem foldl_min_attained (f : Vec2 ℚ → ℚ) (vs : List (Vec2 ℚ)) (a : ℚ) :
    vs.foldl (fun m v => min m (f v)) a = a ∨
      ∃ v ∈ vs, vs.foldl (fun m v => min m (f v)) a = f v := by
  induction vs generalizing a with
  | nil => simp
  | cons w vs ih =>
    simp only [List.foldl_cons, List.mem_cons]
    rcases ih (min a (f w)) with h | ⟨v, hv, h⟩
    · rcases min_choice a (f w) with h2 | h2
      · left; rw [h, h2]
      · right; exact ⟨w, Or.inl rfl, by rw [h, h2]⟩
    · right; exact ⟨v, Or.inr hv, h⟩

theorem foldl_max_ge (f : Vec2 ℚ → ℚ) (vs : List (Vec2 ℚ)) (a : ℚ) :
    a ≤ vs.foldl (fun m v => max m (f v)) a ∧
      ∀ v ∈ vs, f v ≤ vs.foldl (fun m v => max m (f v)) a := by
  induction vs generalizing a with
  | nil => simp
  | cons w vs ih =>
    simp only [List.foldl_cons, List.mem_cons]
    refine ⟨(le_max_left _ _).trans (ih _).1, ?_⟩
    rintro v (rfl | hv)
    · exact (le_max_right _ _).trans (ih _).1
    · exact (ih _).2 v hv

theorem foldl_max_attained (f : Vec2 ℚ → ℚ) (vs : List (Vec2 ℚ)) (a : ℚ) :
    vs.foldl (fun m v => max m (f v)) a = a ∨
      ∃ v ∈ vs, vs.foldl (fun m v => max m (f v)) a = f v := by
  induction vs generalizing a with
  | nil => simp
  | cons w vs ih =>
    simp only [List.foldl_cons, List.mem_cons]
    rcases ih (max a (f w)) with h | ⟨v, hv, h⟩
    · rcases max_choice a (f w) with h2 | h2
      · left; rw [h, h2]
      · right; exact ⟨w, Or.inl rfl, by rw [h, h2]⟩
    · right; exact ⟨v, Or.inr hv, h⟩

/-- The lower bound of `projRange` is below every projection. -/
theorem projRange_fst_le (vs : List (Vec2 ℚ)) (n v : Vec2 ℚ) (hv : v ∈ vs) :
    (projRange vs n).1 ≤ dot v n := by
  rw [projRange_eq_foldl, foldl_rangeStep_fst]
  exact (foldl_min_le (fun v => dot v n) vs _).2 v hv

/-- The upper bound of `projRange` is above every projection. -/
theorem le_projRange_snd (vs : List (Vec2 ℚ)) (n v : Vec2 ℚ) (hv : v ∈ vs) :
    dot v n ≤ (projRange vs n).2 := by
  rw [projRange_eq_foldl, foldl_rangeStep_snd]
  exact (foldl_max_ge (fun v => dot v n) vs _).2 v hv

theorem projRange_fst_le_max (vs : List (Vec2 ℚ)) (n : Vec2 ℚ) : (projRange vs n).1 ≤ FLT_MAX := by
  rw [projRange_eq_foldl, foldl_rangeStep_fst]
  exact (foldl_min_le (fun v => dot v n) vs _).1

theorem neg_max_le_projRange_snd (vs : List (Vec2 ℚ)) (n : Vec2 ℚ) :
    -FLT_MAX ≤ (projRange vs n).2 := by
  rw [projRange_eq_foldl, foldl_rangeStep_snd]
  exact (foldl_max_ge (fun v => dot v n) vs _).1

/-- Within the float range the lower bound is a projection of the body. -/
theorem projRange_fst_attained (vs : List (Vec2 ℚ)) (n : Vec2 ℚ) (hne : vs ≠ [])
    (hb : ∀ v ∈ vs, dot v n ≤ FLT_MAX) : ∃ v ∈ vs, (projRange vs n).1 = dot v n := by
  rw [projRange_eq_foldl, foldl_rangeStep_fst]
  rcases foldl_min_attained (fun v => dot v n) vs FLT_MAX with h | h
  · obtain ⟨w, hw⟩ := List.exists_mem_of_ne_nil vs hne
    refine ⟨w, hw, le_antisymm ((foldl_min_le (fun v => dot v n) vs _).2 w hw) ?_⟩
    show dot w n ≤ _
    rw [h]; exact hb w hw
  · exact h

/-- Within the float range the upper bound is a projection of the body. -/
theorem projRange_snd_attained (vs : List (Vec2 ℚ)) (n : Vec2 ℚ) (hne : vs ≠ [])
    (hb : ∀ v ∈ vs, -FLT_MAX ≤ dot v n) : ∃ v ∈ vs, (projRange vs n).2 = dot v n := by
  rw [projRange_eq_foldl, foldl_rangeStep_snd]
  rcases foldl_max_attained (fun v => dot v n) vs (-FLT_MAX) with h | h
  · obtain ⟨w, hw⟩ := List.exists_mem_of_ne_nil vs hne
    refine ⟨w, hw, le_antisymm ?_ ((foldl_max_ge (fun v => dot v n) vs _).2 w hw)⟩
    show _ ≤ dot w n
    rw [h]; exact hb w hw
  · exact h


/-! ## The axis loop -/

theorem FLT_MAX_pos : (0 : ℚ) < FLT_MAX := by norm_num [FLT_MAX]

theorem separatedOn_none (L R : List (Vec2 ℚ)) : separatedOn L R none := by
  have := FLT_MAX_pos
  simp only [separatedOn, axisRange, max_self, min_self, gt_iff_lt]
  linarith

theorem separatedOn_some (L R : List (Vec2 ℚ)) (n : Vec2 ℚ) :
    separatedOn L R (some n) ↔ ¬ overlapOn L R n := by
  simp only [separatedOn, axisRange, overlapOn, not_le, gt_iff_lt]

/-- The loop returns false exactly when some axis of the list separates. -/
theorem axisLoop_false_iff (L R : List (Vec2 ℚ)) (axes : List (Option (Vec2 ℚ))) (mp : ℚ)
    (ax : Vec2 ℚ) :
    (axisLoop L R axes mp ax).overlaps = false ↔ ∃ a ∈ axes, separatedOn L R a := by
  induction axes generalizing mp ax with
  | nil => simp [axisLoop]
  | cons a rest ih =>
    cases a with
    | none =>
      simp only [axisLoop, List.mem_cons, true_iff]
      exact ⟨none, Or.inl rfl, separatedOn_none L R⟩
    | some n =>
      simp only [axisLoop, List.mem_cons, exists_eq_or_imp, separatedOn_some]
      by_cases ho : overlapOn L R n
      · simp only [ho, if_true, not_true_eq_false, false_or]
        split
        · exact ih _ _
        · exact ih _ _
      · simp [ho]

theorem axisLoop_true_iff (L R : List (Vec2 ℚ)) (axes : List (Option (Vec2 ℚ))) (mp : ℚ)
    (ax : Vec2 ℚ) :
    (axisLoop L R axes mp ax).overlaps = true ↔ ∀ a ∈ axes, ¬ separatedOn L R a := by
  rw [← Bool.not_eq_false, axisLoop_false_iff]
  push_neg
  rfl

/-- The flag does not depend on the order of the axes nor on the initial
values of the out-parameters. -/
theorem axisLoop_overlaps_perm (L R : List (Vec2 ℚ)) (axes axes' : List (Option (Vec2 ℚ)))
    (h : axes'.Perm axes) (mp mp' : ℚ) (ax ax' : Vec2 ℚ) :
    (axisLoop L R axes' mp' ax').overlaps = (axisLoop L R axes mp ax).overlaps := by
  cases hb : (axisLoop L R axes mp ax).overlaps with
  | false =>
    rw [axisLoop_false_iff] at hb ⊢
    obtain ⟨a, ha, hs⟩ := hb
    exact ⟨a, h.mem_iff.mpr ha, hs⟩
  | true =>
    rw [axisLoop_true_iff] at hb ⊢
    exact fun a ha => hb a (h.mem_iff.mp ha)

/-- What the loop leaves in the out-parameters when it returns true. -/
theorem axisLoop_true_spec (L R : List (Vec2 ℚ)) (axes : List (Option (Vec2 ℚ))) (mp : ℚ)
    (ax : Vec2 ℚ) (h : (axisLoop L R axes mp ax).overlaps = true) :
    (axisLoop L R axes mp ax).minPenetration ≤ mp ∧
    (∀ n, some n ∈ axes → (axisLoop L R axes mp ax).minPenetration ≤ penetrationOn L R n) ∧
    (((axisLoop L R axes mp ax).minPenetration = mp ∧
        (axisLoop L R axes mp ax).penetrationAxis = ax) ∨
      ∃ n, some n ∈ axes ∧ penetrationOn L R n < mp ∧
        (axisLoop L R axes mp ax).minPenetration = penetrationOn L R n ∧
        (axisLoop L R axes mp ax).penetrationAxis = signedAxis L R n) := by
  induction axes generalizing mp ax with
  | nil => simp [axisLoop]
  | cons a rest ih =>
    cases a with
    | none => simp [axisLoop] at h
    | some n =>
      by_cases ho : overlapOn L R n
      swap
      · simp [axisLoop, ho] at h
      by_cases hp : penetrationOn L R n < mp
      · have e : axisLoop L R (some n :: rest) mp ax =
            axisLoop L R rest (penetrationOn L R n) (signedAxis L R n) := by
          simp [axisLoop, ho, hp]
        rw [e] at h ⊢
        obtain ⟨h1, h2, h3⟩ := ih _ _ h
        refine ⟨h1.trans hp.le, ?_, ?_⟩
        · intro m hm
          rcases List.mem_cons.mp hm with hm | hm
          · cases hm; exact h1
          · exact h2 m hm
        · right
          rcases h3 with ⟨h3, h4⟩ | ⟨m, hm, hlt, h3, h4⟩
          · exact ⟨n, List.mem_cons_self _ _, hp, h3, h4⟩
          · exact ⟨m, List.mem_cons_of_mem _ hm, hlt.trans hp, h3, h4⟩
      · have e : axisLoop L R (some n :: rest) mp ax = axisLoop L R rest mp ax := by
          simp [axisLoop, ho, hp]
        rw [e] at h ⊢
        obtain ⟨h1, h2, h3⟩ := ih _ _ h
        refine ⟨h1, ?_, ?_⟩
        · intro m hm
          rcases List.mem_cons.mp hm with hm | hm
          · cases hm; exact h1.trans (not_lt.mp hp)
          · exact h2 m hm
        · rcases h3 with h3 | ⟨m, hm, hlt, h3, h4⟩
          · exact Or.inl h3
          · exact Or.inr ⟨m, List.mem_cons_of_mem _ hm, hlt, h3, h4⟩

/-- When the loop returns true every axis of the list is finite. -/
theorem axisLoop_true_finite (L R : List (Vec2 ℚ)) (axes : List (Option (Vec2 ℚ))) (mp : ℚ)
    (ax : Vec2 ℚ) (h : (axisLoop L R axes mp ax).overlaps = true) :
    ∀ a ∈ axes, ∃ n, a = some n := by
  intro a ha
  cases a with
  | none => exact absurd (separatedOn_none L R) ((axisLoop_true_iff L R axes mp ax).mp h _ ha)
  | some n => exact ⟨n, rfl⟩

/-- Within the float range, the depth returned with `true` is the least depth
of the axes. -/
theorem axisLoop_minPenetration (L R : List (Vec2 ℚ)) (axes : List (Option (Vec2 ℚ)))
    (ax : Vec2 ℚ) (hne : axes ≠ [])
    (hb : ∀ n, some n ∈ axes → penetrationOn L R n ≤ FLT_MAX)
    (h : (axisLoop L R axes FLT_MAX ax).overlaps = true) :
    (∃ n, some n ∈ axes ∧
        (axisLoop L R axes FLT_MAX ax).minPenetration = penetrationOn L R n) ∧
    (∀ n, some n ∈ axes →
        (axisLoop L R axes FLT_MAX ax).minPenetration ≤ penetrationOn L R n) := by
  obtain ⟨_, h2, h3⟩ := axisLoop_true_spec L R axes FLT_MAX ax h
  refine ⟨?_, h2⟩
  rcases h3 with ⟨h3, _⟩ | ⟨n, hn, _, h3, _⟩
  · obtain ⟨a, ha⟩ := List.exists_mem_of_ne_nil axes hne
    obtain ⟨n, rfl⟩ := axisLoop_true_finite L R axes FLT_MAX ax h a ha
    refine ⟨n, ha, le_antisymm (h2 n ha) ?_⟩
    rw [h3]; exact hb n ha
  · exact ⟨n, hn, h3⟩

/-! ## Evaluation on the concrete 4-gons -/

theorem refCos_zero : refCos 0 = 1 := by norm_num [refCos, pi]

theorem refSin_zero : refSin 0 = 0 := by norm_num [refSin, pi]

theorem outline_sq : outline refLib 10 4 white =
    [⟨⟨10, 0⟩, white⟩, ⟨⟨0, -10⟩, white⟩, ⟨⟨-10, 0⟩, white⟩, ⟨⟨0, 10⟩, white⟩,
     ⟨⟨10, 0⟩, white⟩] := by
  simp [outline, genLoop, thetaStep, refLib, refCos, refSin, pi, Vec2.smul]
  norm_num

theorem transformPoint_new (r : ℚ) (k : ℕ) (c : Color) (p q : Vec2 ℚ) :
    ((Polygon.new refLib r k c).setPosition p).transformPoint refLib q =
      ⟨q.x + p.x, q.y + p.y⟩ := by
  simp [Polygon.transformPoint, Polygon.new, Polygon.setPosition, refLib, refCos_zero,
    refSin_zero]

theorem worldOutline_sq (p : Vec2 ℚ) : (sqAt p).worldOutline refLib =
    sqVerts p ++ [⟨10 + p.x, 0 + p.y⟩] := by
  have e : ((Polygon.new refLib 10 4 white).setPosition p).m_vertecies =
      outline refLib 10 4 white := rfl
  simp only [Polygon.worldOutline, sqAt, transformPoint_new, e, outline_sq, List.map, sqVerts,
    List.cons_append, List.nil_append]

theorem vertexDataLoop_sq_nil (p : Vec2 ℚ) :
    vertexDataLoop refLib ((sqAt p).worldOutline refLib) [] [] = (sqAxes, sqVerts p) := by
  rw [worldOutline_sq]
  simp [sqVerts, sqAxes, vertexDataLoop, normalize, perpendicular, Vec2.sub, length, refLib,
    refSqrt, VectorSet.insert, Vec2.sdiv]
  norm_num

theorem vertexDataLoop_sq_axes (p : Vec2 ℚ) :
    vertexDataLoop refLib ((sqAt p).worldOutline refLib) sqAxes [] = (sqAxes, sqVerts p) := by
  rw [worldOutline_sq]
  simp [sqVerts, sqAxes, vertexDataLoop, normalize, perpendicular, Vec2.sub, length, refLib,
    refSqrt, VectorSet.insert, Vec2.sdiv]
  norm_num

theorem worldVertices_sq (p : Vec2 ℚ) : worldVertices refLib (sqAt p) = sqVerts p := by
  rw [worldVertices, Polygon.getVertexData, vertexDataLoop_sq_nil]

theorem candidateAxes_sq (p q : Vec2 ℚ) : candidateAxes refLib (sqAt p) (sqAt q) = sqAxes := by
  rw [candidateAxes, Polygon.getVertexData, Polygon.getVertexData, vertexDataLoop_sq_nil,
    vertexDataLoop_sq_axes]

/-- The two 4-gons at (0,0) and (10,0) overlap on every axis of their set. -/
theorem sq_near_overlaps (mp : ℚ) (ax : Vec2 ℚ) :
    (axisLoop (sqVerts ⟨0, 0⟩) (sqVerts ⟨10, 0⟩) sqAxes mp ax).overlaps = true := by
  rw [axisLoop_true_iff]
  intro a ha
  simp only [sqAxes, List.mem_cons, List.mem_singleton, List.not_mem_nil, or_false] at ha
  rcases ha with rfl | rfl | rfl | rfl <;>
    simp [separatedOn, axisRange, projRange, sqVerts, dot, FLT_MAX] <;> norm_num

/-- Every depth of the two 4-gons at (0,0) and (10,0) is far below `FLT_MAX`. -/
theorem sq_near_depth_lt (n : Vec2 ℚ) (hn : some n ∈ sqAxes) :
    penetrationOn (sqVerts ⟨0, 0⟩) (sqVerts ⟨10, 0⟩) n < FLT_MAX := by
  simp only [sqAxes, List.mem_cons, List.mem_singleton, List.not_mem_nil, or_false,
    Option.some.injEq] at hn
  rcases hn with rfl | rfl | rfl | rfl <;>
    norm_num [penetrationOn, projRange, sqVerts, dot, FLT_MAX, abs_lt]

/-! ## Convex hulls and projections -/

theorem outline_point : outline refLib 10 1 white = [⟨⟨10, 0⟩, white⟩, ⟨⟨10, 0⟩, white⟩] := by
  simp [outline, genLoop, thetaStep, refLib, refCos, refSin, pi, Vec2.smul]
  norm_num

theorem worldOutline_point : pointBody.worldOutline refLib = [⟨10, 0⟩, ⟨10, 0⟩] := by
  have e : ((Polygon.new refLib 10 1 white).setPosition ⟨0, 0⟩).m_vertecies =
      outline refLib 10 1 white := rfl
  simp only [Polygon.worldOutline, pointBody, transformPoint_new, e, outline_point, List.map]
  norm_num

theorem vertexDataLoop_point :
    vertexDataLoop refLib (pointBody.worldOutline refLib) [] [] = ([none], [⟨10, 0⟩]) := by
  rw [worldOutline_point]
  simp [vertexDataLoop, normalize, perpendicular, Vec2.sub, length, refLib, refSqrt,
    VectorSet.insert]

theorem mem_insert (s : VectorSet K) (a b : Option (Vec2 K)) :
    b ∈ s.insert a ↔ b ∈ s ∨ b = a := by
  cases a with
  | none => simp [VectorSet.insert]
  | some v =>
    by_cases h : some v ∈ s
    · simp only [VectorSet.insert, h, if_true]
      constructor
      · exact Or.inl
      · rintro (hb | rfl)
        · exact hb
        · exact h
    · simp [VectorSet.insert, h]

/-- The set after `getVertexData` holds what it held before and the normals of
the edges. -/
theorem mem_vertexDataLoop (lib : FloatLib K) (w : List (Vec2 K)) :
    ∀ (s : VectorSet K) (vs : List (Vec2 K)) (b : Option (Vec2 K)),
      b ∈ (vertexDataLoop lib w s vs).1 ↔ b ∈ s ∨ b ∈ edgeNormals lib w := by
  induction w with
  | nil => intro s vs b; simp [vertexDataLoop, edgeNormals]
  | cons a w ih =>
    intro s vs b
    cases w with
    | nil => simp [vertexDataLoop, edgeNormals]
    | cons c w =>
      rw [vertexDataLoop, ih, edgeNormals, mem_insert, List.mem_cons, or_assoc]

theorem mem_candidateAxes (lib : FloatLib ℚ) (left right : Polygon ℚ) (b : Option (Vec2 ℚ)) :
    b ∈ candidateAxes lib left right ↔
      b ∈ edgeNormals lib (left.worldOutline lib) ∨
        b ∈ edgeNormals lib (right.worldOutline lib) := by
  rw [candidateAxes, Polygon.getVertexData, Polygon.getVertexData, mem_vertexDataLoop,
    mem_vertexDataLoop]
  simp

theorem mem_candidateAxes_swap (lib : FloatLib ℚ) (left right : Polygon ℚ) (b : Option (Vec2 ℚ)) :
    b ∈ candidateAxes lib right left ↔ b ∈ candidateAxes lib left right := by
  rw [mem_candidateAxes, mem_candidateAxes, or_comm]

theorem separatedOn_swap (L R : List (Vec2 ℚ)) (a : Option (Vec2 ℚ)) :
    separatedOn R L a ↔ separatedOn L R a := by
  simp only [separatedOn, max_comm, min_comm]

theorem overlapOn_swap (L R : List (Vec2 ℚ)) (n : Vec2 ℚ) : overlapOn R L n ↔ overlapOn L R n := by
  simp only [overlapOn, max_comm, min_comm]

theorem penetrationOn_swap (L R : List (Vec2 ℚ)) (n : Vec2 ℚ) :
    penetrationOn R L n = penetrationOn L R n := by
  simp only [penetrationOn, min_comm]

/-- The flag does not depend on the order of the two arguments. -/
theorem detectCollision_overlaps_swap (lib : FloatLib ℚ) (left right : Polygon ℚ) (ax ax' : Vec2 ℚ) :
    (detectCollision lib right left ax').overlaps = (detectCollision lib left right ax).overlaps := by
  cases hb : (detectCollision lib left right ax).overlaps with
  | false =>
    rw [detectCollision, axisLoop_false_iff] at hb ⊢
    obtain ⟨a, ha, hs⟩ := hb
    exact ⟨a, (mem_candidateAxes_swap lib left right a).mpr ha, (separatedOn_swap _ _ a).mpr hs⟩
  | true =>
    rw [detectCollision, axisLoop_true_iff] at hb ⊢
    intro a ha hs
    exact hb a ((mem_candidateAxes_swap lib left right a).mp ha) ((separatedOn_swap _ _ a).mp hs)

/-- Run on the same axis list with the bodies swapped, the loop takes the same
branches: same flag, same depth, and the axis comes from the same list
element (or is still the initial one in both runs). -/
theorem axisLoop_swap (L R : List (Vec2 ℚ)) (axes : List (Option (Vec2 ℚ))) (mp : ℚ) (ax ax' : Vec2 ℚ) :
    (axisLoop R L axes mp ax').overlaps = (axisLoop L R axes mp ax).overlaps ∧
    (axisLoop R L axes mp ax').minPenetration = (axisLoop L R axes mp ax).minPenetration ∧
    (((axisLoop L R axes mp ax).minPenetration = mp ∧
        (axisLoop L R axes mp ax).penetrationAxis = ax ∧
        (axisLoop R L axes mp ax').penetrationAxis = ax') ∨
      ∃ n, some n ∈ axes ∧ penetrationOn L R n < mp ∧
        (axisLoop L R axes mp ax).minPenetration = penetrationOn L R n ∧
        (axisLoop L R axes mp ax).penetrationAxis = signedAxis L R n ∧
        (axisLoop R L axes mp ax').penetrationAxis = signedAxis R L n) := by
  induction axes generalizing mp ax ax' with
  | nil => simp [axisLoop]
  | cons a rest ih =>
    cases a with
    | none => simp [axisLoop]
    | some n =>
      by_cases ho : overlapOn L R n
      swap
      · have ho' : ¬ overlapOn R L n := fun h => ho ((overlapOn_swap L R n).mp h)
        simp [axisLoop, ho, ho']
      have ho' : overlapOn R L n := (overlapOn_swap L R n).mpr ho
      by_cases hp : penetrationOn L R n < mp
      · have e : axisLoop L R (some n :: rest) mp ax =
            axisLoop L R rest (penetrationOn L R n) (signedAxis L R n) := by
          simp [axisLoop, ho, hp]
        have e' : axisLoop R L (some n :: rest) mp ax' =
            axisLoop R L rest (penetrationOn L R n) (signedAxis R L n) := by
          simp [axisLoop, ho', hp, penetrationOn_swap]
        rw [e, e']
        obtain ⟨h1, h2, h3⟩ := ih (penetrationOn L R n) (signedAxis L R n) (signedAxis R L n)
        refine ⟨h1, h2, Or.inr ?_⟩
        rcases h3 with ⟨h3, h4, h5⟩ | ⟨m, hm, hlt, h3, h4, h5⟩
        · exact ⟨n, List.mem_cons_self _ _, hp, h3, h4, h5⟩
        · exact ⟨m, List.mem_cons_of_mem _ hm, hlt.trans hp, h3, h4, h5⟩
      · have e : axisLoop L R (some n :: rest) mp ax = axisLoop L R rest mp ax := by
          simp [axisLoop, ho, hp]
        have e' : axisLoop R L (some n :: rest) mp ax' = axisLoop R L rest mp ax' := by
          simp [axisLoop, ho', hp, penetrationOn_swap]
        rw [e, e']
        obtain ⟨h1, h2, h3⟩ := ih mp ax ax'
        refine ⟨h1, h2, ?_⟩
        rcases h3 with h3 | ⟨m, hm, hlt, h3, h4, h5⟩
        · exact Or.inl h3
        · exact Or.inr ⟨m, List.mem_cons_of_mem _ hm, hlt, h3, h4, h5⟩

/-- The signed axis of the swapped pair is the reversed axis when the two
lower bounds differ, and the same axis when they are equal. -/
theorem signedAxis_swap (L R : List (Vec2 ℚ)) (n : Vec2 ℚ) :
    ((projRange L n).1 ≠ (projRange R n).1 →
      signedAxis R L n = ⟨-(signedAxis L R n).x, -(signedAxis L R n).y⟩) ∧
    ((projRange L n).1 = (projRange R n).1 → signedAxis R L n = signedAxis L R n) := by
  unfold signedAxis
  constructor
  · intro hne
    rcases lt_or_gt_of_ne hne with h | h
    · have h' : ¬ (projRange L n).1 > (projRange R n).1 := not_lt.mpr h.le
      simp [h, h', Vec2.smul]
    · have h' : ¬ (projRange R n).1 > (projRange L n).1 := not_lt.mpr (le_of_lt h)
      simp [h, h', Vec2.smul]
  · intro he
    simp [he]

/-- The detector on two 4-gons of radius 10 at the same place. -/
theorem detect_sq_same :
    detectCollision refLib (sqAt ⟨0, 0⟩) (sqAt ⟨0, 0⟩) ⟨0, 0⟩ =
      ⟨true, 25000000 / 1767767, ⟨-1250000 / 1767767, 1250000 / 1767767⟩⟩ := by
  rw [detectCollision, candidateAxes_sq, worldVertices_sq]
  norm_num [sqAxes, axisLoop, overlapOn, penetrationOn, signedAxis, projRange, sqVerts, dot,
    FLT_MAX, Vec2.smul, abs_of_pos (show (0 : ℚ) < 25000000 / 1767767 by norm_num)]

/-- Two 4-gons at the same place, any iteration order: the loop returns true and
an axis with a non-zero first component. -/
theorem detect_sq_same_perm (axes : List (Option (Vec2 ℚ))) (hp : axes.Perm sqAxes) (ax : Vec2 ℚ) :
    (axisLoop (sqVerts ⟨0, 0⟩) (sqVerts ⟨0, 0⟩) axes FLT_MAX ax).overlaps = true ∧
      (axisLoop (sqVerts ⟨0, 0⟩) (sqVerts ⟨0, 0⟩) axes FLT_MAX ax).penetrationAxis.x ≠ 0 := by
  have hmem : ∀ n, some n ∈ axes → some n ∈ sqAxes := fun n hn => hp.mem_iff.mp hn
  have hov : (axisLoop (sqVerts ⟨0, 0⟩) (sqVerts ⟨0, 0⟩) axes FLT_MAX ax).overlaps = true := by
    rw [axisLoop_true_iff]
    intro a ha
    have := hp.mem_iff.mp ha
    simp only [sqAxes, List.mem_cons, List.mem_singleton, List.not_mem_nil, or_false] at this
    rcases this with rfl | rfl | rfl | rfl <;>
      norm_num [separatedOn, axisRange, projRange, sqVerts, dot, FLT_MAX]
  refine ⟨hov, ?_⟩
  obtain ⟨_, h2, h3⟩ := axisLoop_true_spec _ _ _ FLT_MAX ax hov
  rcases h3 with ⟨h3, _⟩ | ⟨n, hn, _, _, h4⟩
  · exfalso
    have h5 := h2 ⟨1250000 / 1767767, 1250000 / 1767767⟩ (hp.mem_iff.mpr (by simp [sqAxes]))
    rw [h3] at h5
    revert h5
    norm_num [penetrationOn, projRange, sqVerts, dot, FLT_MAX,
      abs_of_pos (show (0 : ℚ) < 25000000 / 1767767 by norm_num)]
  · rw [h4]
    have := hmem n hn
    simp only [sqAxes, List.mem_cons, List.mem_singleton, List.not_mem_nil, or_false,
      Option.some.injEq] at this
    rcases this with rfl | rfl | rfl | rfl <;>
      norm_num [signedAxis, projRange, sqVerts, dot, FLT_MAX, Vec2.smul]

/-! ## A body against an identical body -/

theorem projRange_fst_le_snd (V : List (Vec2 ℚ)) (n : Vec2 ℚ) (hV : V ≠ []) :
    (projRange V n).1 ≤ (projRange V n).2 := by
  obtain ⟨v, hv⟩ := List.exists_mem_of_ne_nil V hV
  exact (projRange_fst_le V n v hv).trans (le_projRange_snd V n v hv)

theorem overlapOn_self (V : List (Vec2 ℚ)) (n : Vec2 ℚ) (hV : V ≠ []) : overlapOn V V n := by
  simp only [overlapOn, max_self, min_self]
  exact projRange_fst_le_snd V n hV

theorem penetrationOn_self (V : List (Vec2 ℚ)) (n : Vec2 ℚ) (hV : V ≠ []) :
    penetrationOn V V n = (projRange V n).2 - (projRange V n).1 := by
  simp only [penetrationOn, min_self]
  exact abs_of_nonneg (sub_nonneg.mpr (projRange_fst_le_snd V n hV))

theorem signedAxis_self (V : List (Vec2 ℚ)) (n : Vec2 ℚ) : signedAxis V V n = ⟨-n.x, -n.y⟩ := by
  simp [signedAxis, Vec2.smul]

theorem vertexDataLoop_snd_length (lib : FloatLib ℚ) (w : List (Vec2 ℚ)) :
    ∀ (s : VectorSet ℚ) (vs : List (Vec2 ℚ)), vs.length ≤ (vertexDataLoop lib w s vs).2.length := by
  induction w with
  | nil => intro s vs; exact le_refl _
  | cons a w ih =>
    intro s vs
    cases w with
    | nil => exact le_refl _
    | cons b w =>
      rw [vertexDataLoop]
      refine le_trans ?_ (ih _ _)
      simp

/-- A body that contributes an axis has a world-space vertex. -/
theorem worldVertices_ne_nil (lib : FloatLib ℚ) (P : Polygon ℚ)
    (h : edgeNormals lib (P.worldOutline lib) ≠ []) : worldVertices lib P ≠ [] := by
  rw [worldVertices, Polygon.getVertexData]
  generalize P.worldOutline lib = w at h
  match w, h with
  | [], h => exact absurd rfl h
  | [_], h => exact absurd rfl h
  | a :: b :: rest, _ =>
    rw [vertexDataLoop]
    intro e
    have := vertexDataLoop_snd_length lib (b :: rest)
      (VectorSet.insert [] (normalize lib (perpendicular (b.sub a)))) ([] ++ [a])
    rw [e] at this
    simp at this

theorem worldVertices_ne_nil_of_axes (lib : FloatLib ℚ) (P : Polygon ℚ)
    (hne : candidateAxes lib P P ≠ []) : worldVertices lib P ≠ [] := by
  apply worldVertices_ne_nil
  intro e
  obtain ⟨a, ha⟩ := List.exists_mem_of_ne_nil _ hne
  rw [mem_candidateAxes, e] at ha
  simp at ha

/-- A body against itself, all axes finite: the loop returns true. -/
theorem detect_self_overlaps (lib : FloatLib ℚ) (P : Polygon ℚ) (ax : Vec2 ℚ)
    (hne : candidateAxes lib P P ≠ [])
    (hfin : ∀ a ∈ candidateAxes lib P P, a ≠ none) :
    (detectCollision lib P P ax).overlaps = true := by
  rw [detectCollision, axisLoop_true_iff]
  intro a ha
  cases a with
  | none => exact absurd rfl (hfin _ ha)
  | some n =>
    rw [separatedOn_some, not_not]
    exact overlapOn_self _ n (worldVertices_ne_nil_of_axes lib P hne)

/-! ## Evaluation on the 3-gon -/

theorem outline_tri : outline refLib 2 3 white =
    [⟨⟨2, 0⟩, white⟩, ⟨⟨-1, -433 / 250⟩, white⟩, ⟨⟨-1, 433 / 250⟩, white⟩, ⟨⟨2, 0⟩, white⟩] := by
  simp [outline, genLoop, thetaStep, refLib, refCos, refSin, pi, Vec2.smul]
  norm_num

theorem worldOutline_tri : triBody.worldOutline refLib =
    [⟨2, 0⟩, ⟨-1, -433 / 250⟩, ⟨-1, 433 / 250⟩, ⟨2, 0⟩] := by
  have e : ((Polygon.new refLib 2 3 white).setPosition ⟨0, 0⟩).m_vertecies =
      outline refLib 2 3 white := rfl
  simp only [Polygon.worldOutline, triBody, transformPoint_new, e, outline_tri, List.map]
  norm_num

theorem worldVertices_tri :
    worldVertices refLib triBody = [⟨2, 0⟩, ⟨-1, -433 / 250⟩, ⟨-1, 433 / 250⟩] := by
  rw [worldVertices, Polygon.getVertexData, worldOutline_tri]
  rfl

theorem candidateAxes_tri : candidateAxes refLib triBody triBody =
    [some ⟨433000 / 866019, -250000 / 288673⟩, some ⟨-1, 0⟩,
     some ⟨433000 / 866019, 250000 / 288673⟩] := by
  rw [candidateAxes, Polygon.getVertexData, Polygon.getVertexData, worldOutline_tri]
  simp [vertexDataLoop, normalize, perpendicular, Vec2.sub, length, refLib, refSqrt,
    VectorSet.insert, Vec2.sdiv]
  norm_num

theorem getRadius_sq (p : Vec2 ℚ) : (sqAt p).getRadius refLib = some 10 := by
  have e : (sqAt p).m_vertecies = outline refLib 10 4 white := rfl
  rw [Polygon.getRadius, e, outline_sq]
  norm_num [length, refLib, refSqrt]

/-- The axis the 3-gon returns against itself is the reverse of a normal, and
no reversed normal of the 3-gon is in its axis set. -/
theorem tri_neg_not_mem (n : Vec2 ℚ) (hn : some n ∈ candidateAxes refLib triBody triBody) :
    some (⟨-n.x, -n.y⟩ : Vec2 ℚ) ∉ candidateAxes refLib triBody triBody := by
  rw [candidateAxes_tri] at hn ⊢
  simp only [List.mem_cons, List.mem_singleton, List.not_mem_nil, or_false,
    Option.some.injEq] at hn
  rcases hn with rfl | rfl | rfl <;> norm_num

theorem tri_depth_lt (n : Vec2 ℚ) (hn : some n ∈ candidateAxes refLib triBody triBody) :
    penetrationOn (worldVertices refLib triBody) (worldVertices refLib triBody) n < FLT_MAX := by
  rw [candidateAxes_tri] at hn
  rw [worldVertices_tri]
  simp only [List.mem_cons, List.mem_singleton, List.not_mem_nil, or_false,
    Option.some.injEq] at hn
  rcases hn with rfl | rfl | rfl <;>
    norm_num [penetrationOn, projRange, dot, FLT_MAX, abs_lt]

/-! ## Outline generation -/

theorem loop_bound_pos : (0 : K) < 2 * pi - 1 / 100 := by norm_num [pi]

theorem genLoop_succ (lib : FloatLib K) (radius : K) (color : Color) (step : Option K)
    (fuel : ℕ) (theta : K) :
    genLoop lib radius color step (fuel + 1) theta =
      if theta < 2 * pi - 1 / 100 then
        ⟨(Vec2.mk (lib.cosf theta) (-(lib.sinf theta))).smul radius, color⟩ ::
          (match step with
           | none => []
           | some s => genLoop lib radius color step fuel (lib.addf theta s))
      else [] := rfl

theorem genLoop_zero_lt (lib : FloatLib K) (radius : K) (color : Color) (step : Option K)
    (fuel : ℕ) :
    genLoop lib radius color step (fuel + 1) 0 =
      ⟨(Vec2.mk (lib.cosf 0) (-(lib.sinf 0))).smul radius, color⟩ ::
        (match step with
         | none => []
         | some s => genLoop lib radius color step fuel (lib.addf 0 s)) := by
  rw [genLoop_succ, if_pos loop_bound_pos]

/-- The stored outline is the generated points followed by a copy of the
first one, and the first one is the point of angle 0. -/
theorem outline_eq (lib : FloatLib K) (radius : K) (numVertecies : ℕ) (color : Color) :
    ∃ rest : List (Vertex K),
      genLoop lib radius color (thetaStep numVertecies) (numVertecies + 1) 0 =
        ⟨(Vec2.mk (lib.cosf 0) (-(lib.sinf 0))).smul radius, color⟩ :: rest ∧
      outline lib radius numVertecies color =
        ⟨(Vec2.mk (lib.cosf 0) (-(lib.sinf 0))).smul radius, color⟩ ::
          (rest ++ [⟨(Vec2.mk (lib.cosf 0) (-(lib.sinf 0))).smul radius, color⟩]) := by
  refine ⟨_, genLoop_zero_lt lib radius color _ numVertecies, ?_⟩
  unfold outline
  rw [genLoop_zero_lt]
  rfl

/-- The number of generated points, for a finite step: the first `m` values of
`theta` pass the loop test and the next one fails it. -/
theorem genLoop_length_iterate (lib : FloatLib K) (radius : K) (color : Color) (s : K) :
    ∀ (m fuel : ℕ) (theta : K), m ≤ fuel →
      (∀ k : ℕ, k < m → (fun t => lib.addf t s)^[k] theta < 2 * pi - 1 / 100) →
      ¬ ((fun t => lib.addf t s)^[m] theta < 2 * pi - 1 / 100) →
      (genLoop lib radius color (some s) fuel theta).length = m := by
  intro m
  induction m with
  | zero =>
    intro fuel theta _ _ hstop
    have hstop' : ¬ (theta < 2 * pi - 1 / 100) := by simpa using hstop
    cases fuel with
    | zero => rfl
    | succ f => rw [genLoop_succ, if_neg hstop']; rfl
  | succ m ih =>
    intro fuel theta hle hlt hstop
    cases fuel with
    | zero => omega
    | succ f =>
      have h0 : theta < 2 * pi - 1 / 100 := by simpa using hlt 0 (Nat.succ_pos m)
      rw [genLoop_succ, if_pos h0]
      simp only [List.length_cons, add_left_inj]
      apply ih f (lib.addf theta s) (by omega)
      · intro k hk
        have := hlt (k + 1) (by omega)
        rwa [Function.iterate_succ_apply] at this
      · intro h
        apply hstop
        rwa [Function.iterate_succ_apply]

/-- With an exact addition the `k`-th value of `theta` is `theta + k * s`. -/
theorem iterate_addf_exact (lib : FloatLib K) (hadd : ∀ a b : K, lib.addf a b = a + b)
    (s : K) : ∀ (k : ℕ) (theta : K), (fun t => lib.addf t s)^[k] theta = theta + k * s := by
  intro k
  induction k with
  | zero => intro theta; simp
  | succ k ih =>
    intro theta
    rw [Function.iterate_succ_apply, ih, hadd]
    push_cast
    ring

/-- The number of generated points, for a finite positive step and an exact
addition: the first `m` angles pass the loop test and the next one fails it. -/
theorem genLoop_length (lib : FloatLib K) (hadd : ∀ a b : K, lib.addf a b = a + b)
    (radius : K) (color : Color) (s : K) :
    ∀ (m fuel : ℕ) (theta : K), m ≤ fuel →
      (∀ k : ℕ, k < m → theta + k * s < 2 * pi - 1 / 100) →
      ¬ (theta + m * s < 2 * pi - 1 / 100) →
      (genLoop lib radius color (some s) fuel theta).length = m := by
  intro m fuel theta hle hlt hstop
  apply genLoop_length_iterate lib radius color s m fuel theta hle
  · intro k hk
    rw [iterate_addf_exact lib hadd]
    exact hlt k hk
  · rw [iterate_addf_exact lib hadd]
    exact hstop

theorem outline_length (lib : FloatLib K) (radius : K) (numVertecies : ℕ) (color : Color) :
    (outline lib radius numVertecies color).length =
      (genLoop lib radius color (thetaStep numVertecies) (numVertecies + 1) 0).length + 1 := by
  obtain ⟨rest, h1, h2⟩ := outline_eq lib radius numVertecies color
  rw [h1, h2]
  simp

/-- With an exact addition, for a vertex count from 1 to 628 the loop
generates exactly that many points. -/
theorem genLoop_length_eq (lib : FloatLib K) (hadd : ∀ a b : K, lib.addf a b = a + b)
    (radius : K) (n : ℕ) (color : Color) (h1 : 1 ≤ n) (h2 : n ≤ 628) :
    (genLoop lib radius color (thetaStep n) (n + 1) 0).length = n := by
  have hn : n ≠ 0 := by omega
  have hnK : (0 : K) < n := by exact_mod_cast h1
  have hn628 : (n : K) ≤ 628 := by exact_mod_cast h2
  rw [thetaStep, if_neg hn]
  apply genLoop_length lib hadd radius color _ n (n + 1) 0 (by omega)
  · intro k hk
    have hk' : (k : K) + 1 ≤ n := by exact_mod_cast hk
    rw [zero_add, mul_div_assoc', lt_sub_iff_add_lt, div_add' _ _ _ (ne_of_gt hnK),
      div_lt_iff₀ hnK]
    have hpi : (315 / 100 : K) > pi ∧ (314 / 100 : K) < pi := by constructor <;> norm_num [pi]
    nlinarith [mul_le_mul_of_nonneg_left hk' (show (0 : K) ≤ 2 * pi by linarith)]
  · rw [zero_add, mul_div_cancel₀ _ (ne_of_gt hnK)]
    norm_num

omit [LinearOrderedField K] in
theorem getNumVertecies_eq (P : Polygon K) (n : ℕ) (h : P.m_vertecies.length = n + 1)
    (hn : n < 2 ^ 64) : P.getNumVertecies = n := by
  rw [Polygon.getNumVertecies, h]
  have e : n + 1 + 2 ^ 64 - 1 = n + 2 ^ 64 := by omega
  rw [e, Nat.add_mod_right, Nat.mod_eq_of_lt hn]

/-- For a vertex count of 0 the step is infinite and one point is generated. -/
theorem genLoop_length_zero (lib : FloatLib K) (radius : K) (color : Color) :
    (genLoop lib radius color (thetaStep 0) (0 + 1) 0).length = 1 := by
  rw [genLoop_zero_lt]
  rfl

/-- For a vertex count of 629 the step is below 0.01 and the last angle fails
the loop test: with an exact addition 628 points are generated. -/
theorem genLoop_length_629 (lib : FloatLib K) (hadd : ∀ a b : K, lib.addf a b = a + b)
    (radius : K) (color : Color) :
    (genLoop lib radius color (thetaStep 629) (629 + 1) 0).length = 628 := by
  rw [thetaStep, if_neg (by norm_num)]
  apply genLoop_length lib hadd radius color _ 628 (629 + 1) 0 (by norm_num)
  · intro k hk
    have hk' : (k : K) ≤ 627 := by exact_mod_cast Nat.lt_succ_iff.mp hk
    have hpi : (314 / 100 : K) < pi := by norm_num [pi]
    have h2 : (k : K) * (2 * pi / ((629 : ℕ) : K)) ≤ 627 * (2 * pi / ((629 : ℕ) : K)) :=
      mul_le_mul_of_nonneg_right hk' (by positivity)
    have h3 : (627 : K) * (2 * pi / ((629 : ℕ) : K)) < 2 * pi - 1 / 100 := by
      norm_num [pi]
    linarith
  · norm_num [pi]

/-- The accumulated rounding error of `theta`: if every `theta += s` is off
the exact sum by at most `d`, then after `k` additions `theta` is off `k * s`
by at most `k * d`. -/
theorem iterate_addf_rounded (lib : FloatLib K) (s d : K) (n : ℕ) (hd : 0 ≤ d) (hds : d ≤ s)
    (htop : (n : K) * s + n * d ≤ 8)
    (hround : ∀ a b : K, 0 ≤ a → 0 ≤ b → a + b ≤ 8 → |lib.addf a b - (a + b)| ≤ d) :
    ∀ k : ℕ, k ≤ n → |(fun t => lib.addf t s)^[k] 0 - k * s| ≤ k * d := by
  intro k
  induction k with
  | zero => intro _; simp
  | succ k ih =>
    intro hk
    have ih' := abs_le.mp (ih (by omega))
    have hkn : (k : K) + 1 ≤ n := by exact_mod_cast hk
    have hk0 : (0 : K) ≤ k := Nat.cast_nonneg k
    have hs : 0 ≤ s := le_trans hd hds
    have hks : (k : K) * d ≤ k * s := mul_le_mul_of_nonneg_left hds hk0
    have h1 : ((k : K) + 1) * s ≤ n * s := mul_le_mul_of_nonneg_right hkn hs
    have h2 : (k : K) * d ≤ n * d := mul_le_mul_of_nonneg_right (by linarith) hd
    have hr := abs_le.mp (hround ((fun t => lib.addf t s)^[k] 0) s (by linarith) hs
      (by linarith))
    rw [Function.iterate_succ_apply', abs_le]
    push_cast
    constructor <;> linarith [hr.1, hr.2]

/-- For a vertex count from 1 to 618 the loop generates exactly that many
points, also when every `theta += step` is rounded with an error of at most
`1 / 4000000`. -/
theorem genLoop_length_rounded (lib : FloatLib K) (radius : K) (n : ℕ) (color : Color)
    (hround : ∀ a b : K, 0 ≤ a → 0 ≤ b → a + b ≤ 8 →
      |lib.addf a b - (a + b)| ≤ 1 / 4000000)
    (h1 : 1 ≤ n) (h2 : n ≤ 618) :
    (genLoop lib radius color (thetaStep n) (n + 1) 0).length = n := by
  have hn : n ≠ 0 := by omega
  have hnK : (0 : K) < n := by exact_mod_cast h1
  have hn1 : (1 : K) ≤ n := by exact_mod_cast h1
  have hn618 : (n : K) ≤ 618 := by exact_mod_cast h2
  have hpi0 : (0 : K) ≤ 2 * pi := by norm_num [pi]
  have hns : (n : K) * (2 * pi / (n : K)) = 2 * pi := mul_div_cancel₀ _ (ne_of_gt hnK)
  have hs : (2 * pi / 618 : K) ≤ 2 * pi / (n : K) :=
    div_le_div_of_nonneg_left hpi0 hnK hn618
  have hs618 : (10166 / 1000000 : K) < 2 * pi / 618 := by norm_num [pi]
  have hpiu : (2 * pi : K) < 63 / 10 := by norm_num [pi]
  have herr := iterate_addf_rounded lib (2 * pi / (n : K)) (1 / 4000000) n (by norm_num)
    (by linarith) (by rw [hns]; linarith) hround
  rw [thetaStep, if_neg hn]
  apply genLoop_length_iterate lib radius color _ n (n + 1) 0 (by omega)
  · intro k hk
    have hk' : (k : K) + 1 ≤ n := by exact_mod_cast hk
    have hk0 : (0 : K) ≤ k := Nat.cast_nonneg k
    have e := (abs_le.mp (herr k (by omega))).2
    have h3 : ((k : K) + 1) * (2 * pi / (n : K)) ≤ n * (2 * pi / (n : K)) :=
      mul_le_mul_of_nonneg_right hk' (by linarith)
    rw [hns] at h3
    linarith
  · have e := (abs_le.mp (herr n le_rfl)).1
    rw [hns] at e
    intro hlt
    linarith

/-! ## Every constructed body has an edge -/

theorem normalize_zero (lib : FloatLib K) (h0 : lib.sqrtf 0 = 0) (v : Vec2 K) :
    normalize lib (perpendicular (v.sub v)) = none := by
  simp [normalize, perpendicular, Vec2.sub, length, h0]

theorem edgeNormals_append_mem (lib : FloatLib K) (l1 : List (Vec2 K)) (a b : Vec2 K)
    (l2 : List (Vec2 K)) :
    normalize lib (perpendicular (b.sub a)) ∈ edgeNormals lib (l1 ++ a :: b :: l2) := by
  induction l1 with
  | nil => simp [edgeNormals]
  | cons c l1 ih =>
    cases l1 with
    | nil =>
      simp only [List.cons_append, List.nil_append, edgeNormals, List.mem_cons]
      right; left; trivial
    | cons d l1 =>
      simp only [List.cons_append, edgeNormals, List.mem_cons]
      right
      simpa using ih

/-! ## The checked point-in-polygon loop -/

theorem crossesRightChecked_eq (point vc vn : Vec2 K) :
    crossesRightChecked point vc vn = some (decide (crossesRight point vc vn)) := by
  unfold crossesRightChecked crossesRight
  by_cases hs : (vc.y ≥ point.y ∧ vn.y < point.y) ∨ (vc.y < point.y ∧ vn.y ≥ point.y)
  · have hne : vn.y - vc.y ≠ 0 := by
      rcases hs with ⟨h1, h2⟩ | ⟨h1, h2⟩
      · exact ne_of_lt (by linarith)
      · exact ne_of_gt (by linarith)
    simp [hs, checkedDiv, hne]
  · simp [hs]

theorem containsChecked_eq (lib : FloatLib K) (P : Polygon K) (point : Vec2 K) :
    ∀ (fuel i : ℕ) (b : Bool), i + fuel + 1 = P.m_vertecies.length →
      containsChecked lib P point (P.m_vertecies.length - 1) fuel i b =
        some (containsLoop point ((P.worldOutline lib).drop i) b) := by
  intro fuel
  induction fuel with
  | zero =>
    intro i b h
    have hl : ((P.worldOutline lib).drop i).length = 1 := by
      simp [Polygon.worldOutline]; omega
    match hd : (P.worldOutline lib).drop i, hl with
    | [x], _ => rfl
  | succ f ih =>
    intro i b h
    have hi : i < P.m_vertecies.length - 1 := by omega
    have h1 : i < P.m_vertecies.length := by omega
    have h2 : i + 1 < P.m_vertecies.length := by omega
    have hw1 : i < (P.worldOutline lib).length := by simpa [Polygon.worldOutline] using h1
    have hw2 : i + 1 < (P.worldOutline lib).length := by simpa [Polygon.worldOutline] using h2
    rw [containsChecked, if_pos hi, List.get?_eq_get h1, List.get?_eq_get h2]
    simp only [crossesRightChecked_eq]
    have hd : (P.worldOutline lib).drop i =
        P.transformPoint lib (P.m_vertecies.get ⟨i, h1⟩).position ::
          P.transformPoint lib (P.m_vertecies.get ⟨i + 1, h2⟩).position ::
            (P.worldOutline lib).drop (i + 1 + 1) := by
      rw [List.drop_eq_getElem_cons hw1, List.drop_eq_getElem_cons hw2]
      simp [Polygon.worldOutline]
    have hd' : (P.worldOutline lib).drop (i + 1) =
        P.transformPoint lib (P.m_vertecies.get ⟨i + 1, h2⟩).position ::
          (P.worldOutline lib).drop (i + 1 + 1) := by
      rw [List.drop_eq_getElem_cons hw2]
      simp [Polygon.worldOutline]
    rw [hd, containsLoop, ← hd']
    by_cases hc : crossesRight point
        (P.transformPoint lib (P.m_vertecies.get ⟨i, h1⟩).position)
        (P.transformPoint lib (P.m_vertecies.get ⟨i + 1, h2⟩).position)
    · simp only [hc, decide_True, if_true]
      exact ih (i + 1) (!b) (by omega)
    · simp only [hc, decide_False, if_false]
      exact ih (i + 1) b (by omega)

/-! ## Translating both bodies -/

/-- C3: `detectCollision` returns false exactly when some axis of the candidate
set satisfies `max(minA, minB) > min(maxA, maxB)` for the bounds the detector
holds on that axis; the flag is the same for every iteration order of the set
(and every initial value of the out-parameters); and on a finite axis, for a
body with at least one vertex and projections within the float range, the
bounds are the least and the greatest dot product of its vertices with the
axis. -/
theorem detectCollision_false_iff_separated (lib : FloatLib ℚ) (left right : Polygon ℚ)
    (ax : Vec2 ℚ) :
    ((detectCollision lib left right ax).overlaps = false ↔
      ∃ a ∈ candidateAxes lib left right,
        separatedOn (worldVertices lib left) (worldVertices lib right) a) ∧
    (∀ axes' : List (Option (Vec2 ℚ)), axes'.Perm (candidateAxes lib left right) →
      ∀ (mp : ℚ) (ax' : Vec2 ℚ),
        (axisLoop (worldVertices lib left) (worldVertices lib right) axes' mp ax').overlaps =
          (detectCollision lib left right ax).overlaps) ∧
    (∀ (V : List (Vec2 ℚ)) (n : Vec2 ℚ), V ≠ [] → (∀ v ∈ V, |dot v n| ≤ FLT_MAX) →
      (∃ v ∈ V, (axisRange V (some n)).1 = dot v n) ∧
      (∀ v ∈ V, (axisRange V (some n)).1 ≤ dot v n) ∧
      (∃ v ∈ V, (axisRange V (some n)).2 = dot v n) ∧
      (∀ v ∈ V, dot v n ≤ (axisRange V (some n)).2)) := by
  refine ⟨axisLoop_false_iff _ _ _ _ _, ?_, ?_⟩
  · intro axes' hp mp ax'
    exact axisLoop_overlaps_perm _ _ _ _ hp _ _ _ _
  · intro V n hne hb
    exact ⟨projRange_fst_attained V n hne (fun v hv => (abs_le.mp (hb v hv)).2),
      fun v hv => projRange_fst_le V n v hv,
      projRange_snd_attained V n hne (fun v hv => (abs_le.mp (hb v hv)).1),
      fun v hv => le_projRange_snd V n v hv⟩

/-- C3, evaluated: the two 4-gons of radius 10 at (0,0) and (100,0) are
reported apart, and an axis of their candidate set separates them. -/
theorem detectCollision_false_iff_separated_witness :
    (detectCollision refLib (sqAt ⟨0, 0⟩) (sqAt ⟨100, 0⟩) ⟨0, 0⟩).overlaps = false ∧
      ∃ a ∈ candidateAxes refLib (sqAt ⟨0, 0⟩) (sqAt ⟨100, 0⟩),
        separatedOn (worldVertices refLib (sqAt ⟨0, 0⟩))
          (worldVertices refLib (sqAt ⟨100, 0⟩)) a := by
  have h : ∃ a ∈ candidateAxes refLib (sqAt ⟨0, 0⟩) (sqAt ⟨100, 0⟩),
      separatedOn (worldVertices refLib (sqAt ⟨0, 0⟩))
        (worldVertices refLib (sqAt ⟨100, 0⟩)) a := by
    rw [candidateAxes_sq, worldVertices_sq, worldVertices_sq]
    refine ⟨some ⟨1250000 / 1767767, -1250000 / 1767767⟩, by simp [sqAxes], ?_⟩
    simp [separatedOn, axisRange, projRange, sqVerts, dot, FLT_MAX]
    norm_num
  exact ⟨(detectCollision_false_iff_separated refLib _ _ _).1.mpr h, h⟩

/-- C5: when `detectCollision` returns true on a candidate axis set whose
per-axis depths are below `FLT_MAX` (non-empty set), the returned
`penetrationAxis` comes from an axis `n` of the set whose depth is the returned
`minPenetration`: it is `n` when `minB > minA` on `n`, and `n * -1` otherwise. -/
theorem detectCollision_penetrationAxis (lib : FloatLib ℚ) (left right : Polygon ℚ) (ax : Vec2 ℚ)
    (hne : candidateAxes lib left right ≠ [])
    (hb : ∀ n, some n ∈ candidateAxes lib left right →
      penetrationOn (worldVertices lib left) (worldVertices lib right) n < FLT_MAX)
    (h : (detectCollision lib left right ax).overlaps = true) :
    ∃ n, some n ∈ candidateAxes lib left right ∧
      penetrationOn (worldVertices lib left) (worldVertices lib right) n =
        (detectCollision lib left right ax).minPenetration ∧
      ((detectCollision lib left right ax).penetrationAxis = n ∨
        (detectCollision lib left right ax).penetrationAxis = ⟨-n.x, -n.y⟩) ∧
      ((projRange (worldVertices lib right) n).1 > (projRange (worldVertices lib left) n).1 →
        (detectCollision lib left right ax).penetrationAxis = n) ∧
      (¬ (projRange (worldVertices lib right) n).1 > (projRange (worldVertices lib left) n).1 →
        (detectCollision lib left right ax).penetrationAxis = ⟨-n.x, -n.y⟩) := by
  obtain ⟨_, h2, h3⟩ := axisLoop_true_spec _ _ _ FLT_MAX ax h
  rcases h3 with ⟨h3, _⟩ | ⟨n, hn, _, h3, h4⟩
  · exfalso
    obtain ⟨a, ha⟩ := List.exists_mem_of_ne_nil _ hne
    obtain ⟨n, rfl⟩ := axisLoop_true_finite _ _ _ FLT_MAX ax h a ha
    have := h2 n ha
    rw [h3] at this
    exact absurd (hb n ha) (not_lt.mpr this)
  · have e : (detectCollision lib left right ax).penetrationAxis =
        signedAxis (worldVertices lib left) (worldVertices lib right) n := h4
    refine ⟨n, hn, h3.symm, ?_, ?_, ?_⟩
    · rw [e]; unfold signedAxis; split
      · exact Or.inl rfl
      · right; simp [Vec2.smul]
    · intro hgt; rw [e]; simp [signedAxis, hgt]
    · intro hgt; rw [e]; simp [signedAxis, hgt, Vec2.smul]

/-- C5, evaluated on the two 4-gons of radius 10 at (0,0) and (10,0). -/
theorem detectCollision_penetrationAxis_witness :
    ∃ n, some n ∈ candidateAxes refLib (sqAt ⟨0, 0⟩) (sqAt ⟨10, 0⟩) ∧
      penetrationOn (worldVertices refLib (sqAt ⟨0, 0⟩))
          (worldVertices refLib (sqAt ⟨10, 0⟩)) n =
        (detectCollision refLib (sqAt ⟨0, 0⟩) (sqAt ⟨10, 0⟩) ⟨0, 0⟩).minPenetration ∧
      ((detectCollision refLib (sqAt ⟨0, 0⟩) (sqAt ⟨10, 0⟩) ⟨0, 0⟩).penetrationAxis = n ∨
        (detectCollision refLib (sqAt ⟨0, 0⟩) (sqAt ⟨10, 0⟩) ⟨0, 0⟩).penetrationAxis =
          ⟨-n.x, -n.y⟩) ∧
      ((projRange (worldVertices refLib (sqAt ⟨10, 0⟩)) n).1 >
          (projRange (worldVertices refLib (sqAt ⟨0, 0⟩)) n).1 →
        (detectCollision refLib (sqAt ⟨0, 0⟩) (sqAt ⟨10, 0⟩) ⟨0, 0⟩).penetrationAxis = n) ∧
      (¬ (projRange (worldVertices refLib (sqAt ⟨10, 0⟩)) n).1 >
          (projRange (worldVertices refLib (sqAt ⟨0, 0⟩)) n).1 →
        (detectCollision refLib (sqAt ⟨0, 0⟩) (sqAt ⟨10, 0⟩) ⟨0, 0⟩).penetrationAxis =
          ⟨-n.x, -n.y⟩) :=
  detectCollision_penetrationAxis refLib (sqAt ⟨0, 0⟩) (sqAt ⟨10, 0⟩) ⟨0, 0⟩
    (by rw [candidateAxes_sq]; simp [sqAxes])
    (by
      rw [candidateAxes_sq, worldVertices_sq, worldVertices_sq]
      exact fun n hn => sq_near_depth_lt n hn)
    (by
      rw [detectCollision, candidateAxes_sq, worldVertices_sq, worldVertices_sq]
      exact sq_near_overlaps _ _)

/-- C8 as stated fails: for two 4-gons of radius 10 at the same place detection
reports a collision, and the axis `detectCollision(B, A)` returns is not the
negation of the axis `detectCollision(A, B)` returns (`minA = minB` on every
axis, so both calls return the reversed normal); this holds for every iteration
order of the axis set. -/
theorem detectCollision_antisymmetry_counterexample :
    (detectCollision refLib (sqAt ⟨0, 0⟩) (sqAt ⟨0, 0⟩) ⟨0, 0⟩).overlaps = true ∧
    (detectCollision refLib (sqAt ⟨0, 0⟩) (sqAt ⟨0, 0⟩) ⟨0, 0⟩).penetrationAxis ≠
      ⟨-(detectCollision refLib (sqAt ⟨0, 0⟩) (sqAt ⟨0, 0⟩) ⟨0, 0⟩).penetrationAxis.x,
       -(detectCollision refLib (sqAt ⟨0, 0⟩) (sqAt ⟨0, 0⟩) ⟨0, 0⟩).penetrationAxis.y⟩ ∧
    (∀ axes' : List (Option (Vec2 ℚ)),
      axes'.Perm (candidateAxes refLib (sqAt ⟨0, 0⟩) (sqAt ⟨0, 0⟩)) → ∀ ax' : Vec2 ℚ,
        (axisLoop (worldVertices refLib (sqAt ⟨0, 0⟩)) (worldVertices refLib (sqAt ⟨0, 0⟩))
          axes' FLT_MAX ax').overlaps = true ∧
        (axisLoop (worldVertices refLib (sqAt ⟨0, 0⟩)) (worldVertices refLib (sqAt ⟨0, 0⟩))
          axes' FLT_MAX ax').penetrationAxis ≠
          ⟨-(axisLoop (worldVertices refLib (sqAt ⟨0, 0⟩))
              (worldVertices refLib (sqAt ⟨0, 0⟩)) axes' FLT_MAX ax').penetrationAxis.x,
           -(axisLoop (worldVertices refLib (sqAt ⟨0, 0⟩))
              (worldVertices refLib (sqAt ⟨0, 0⟩)) axes' FLT_MAX ax').penetrationAxis.y⟩) := by
  refine ⟨by rw [detect_sq_same], ?_, ?_⟩
  · rw [detect_sq_same]
    norm_num
  · intro axes' hp ax'
    rw [candidateAxes_sq] at hp
    rw [worldVertices_sq]
    obtain ⟨h1, h2⟩ := detect_sq_same_perm axes' hp ax'
    refine ⟨h1, ?_⟩
    intro e
    have e2 := congrArg Vec2.x e
    simp only at e2
    apply h2
    linarith

/-- C8, amended: when `detectCollision(A, B)` reports a collision (non-empty
axis set, depths below `FLT_MAX`), `detectCollision(B, A)` reports a collision
too, with the same penetration depth. When both calls visit the candidate axes
in the same order they take their result from the same axis `n` of least
depth: the two returned axes are negations of each other when `minA` and `minB`
differ on `n`, and are the same vector when `minA = minB` on `n`. -/
theorem detectCollision_antisymmetry (lib : FloatLib ℚ) (left right : Polygon ℚ) (ax ax' : Vec2 ℚ)
    (hne : candidateAxes lib left right ≠ [])
    (hb : ∀ n, some n ∈ candidateAxes lib left right →
      penetrationOn (worldVertices lib left) (worldVertices lib right) n < FLT_MAX)
    (h : (detectCollision lib left right ax).overlaps = true) :
    (detectCollision lib right left ax').overlaps = true ∧
    (detectCollision lib right left ax').minPenetration =
      (detectCollision lib left right ax).minPenetration ∧
    (∀ axes' : List (Option (Vec2 ℚ)), axes'.Perm (candidateAxes lib left right) →
      ∃ n, some n ∈ axes' ∧
        (axisLoop (worldVertices lib left) (worldVertices lib right) axes' FLT_MAX
          ax).minPenetration =
          penetrationOn (worldVertices lib left) (worldVertices lib right) n ∧
        (axisLoop (worldVertices lib right) (worldVertices lib left) axes' FLT_MAX
          ax').minPenetration =
          penetrationOn (worldVertices lib left) (worldVertices lib right) n ∧
        ((projRange (worldVertices lib left) n).1 ≠ (projRange (worldVertices lib right) n).1 →
          (axisLoop (worldVertices lib right) (worldVertices lib left) axes' FLT_MAX
            ax').penetrationAxis =
            ⟨-(axisLoop (worldVertices lib left) (worldVertices lib right) axes' FLT_MAX
                ax).penetrationAxis.x,
             -(axisLoop (worldVertices lib left) (worldVertices lib right) axes' FLT_MAX
                ax).penetrationAxis.y⟩) ∧
        ((projRange (worldVertices lib left) n).1 = (projRange (worldVertices lib right) n).1 →
          (axisLoop (worldVertices lib right) (worldVertices lib left) axes' FLT_MAX
            ax').penetrationAxis =
            (axisLoop (worldVertices lib left) (worldVertices lib right) axes' FLT_MAX
              ax).penetrationAxis)) := by
  have hsw : (detectCollision lib right left ax').overlaps = true := by
    rw [detectCollision_overlaps_swap lib left right ax ax']; exact h
  refine ⟨hsw, ?_, ?_⟩
  · have hne' : candidateAxes lib right left ≠ [] := by
      obtain ⟨a, ha⟩ := List.exists_mem_of_ne_nil _ hne
      exact List.ne_nil_of_mem ((mem_candidateAxes_swap lib left right a).mpr ha)
    have hb' : ∀ n, some n ∈ candidateAxes lib right left →
        penetrationOn (worldVertices lib right) (worldVertices lib left) n ≤ FLT_MAX := by
      intro n hn
      rw [penetrationOn_swap]
      exact (hb n ((mem_candidateAxes_swap lib left right _).mp hn)).le
    obtain ⟨⟨n, hn, e1⟩, l1⟩ := axisLoop_minPenetration _ _ _ ax hne (fun n hn => (hb n hn).le) h
    obtain ⟨⟨m, hm, e2⟩, l2⟩ := axisLoop_minPenetration _ _ _ ax' hne' hb' hsw
    apply le_antisymm
    · have := l2 n ((mem_candidateAxes_swap lib left right _).mpr hn)
      rw [penetrationOn_swap] at this
      exact this.trans (le_of_eq e1.symm)
    · have := l1 m ((mem_candidateAxes_swap lib left right _).mp hm)
      have e2' : (detectCollision lib right left ax').minPenetration =
          penetrationOn (worldVertices lib right) (worldVertices lib left) m := e2
      rw [e2', penetrationOn_swap]
      exact this
  · intro axes' hp
    have hov : (axisLoop (worldVertices lib left) (worldVertices lib right) axes' FLT_MAX
        ax).overlaps = true := by
      rw [axisLoop_overlaps_perm _ _ _ _ hp FLT_MAX FLT_MAX ax ax]; exact h
    obtain ⟨_, h2, h3⟩ := axisLoop_swap (worldVertices lib left) (worldVertices lib right)
      axes' FLT_MAX ax ax'
    rcases h3 with ⟨h3, _, _⟩ | ⟨n, hn, _, h3, h4, h5⟩
    · exfalso
      have hne' : axes' ≠ [] := fun e => hne (by simpa [e] using hp.symm)
      obtain ⟨a, ha⟩ := List.exists_mem_of_ne_nil _ hne'
      obtain ⟨n, rfl⟩ := axisLoop_true_finite _ _ _ FLT_MAX ax hov a ha
      have := (axisLoop_true_spec _ _ _ FLT_MAX ax hov).2.1 n ha
      rw [h3] at this
      exact absurd (hb n (hp.mem_iff.mp ha)) (not_lt.mpr this)
    · refine ⟨n, hn, h3, h2.trans h3, ?_, ?_⟩
      · intro hd
        rw [h5, h4]
        exact (signedAxis_swap _ _ n).1 hd
      · intro hd
        rw [h5, h4]
        exact (signedAxis_swap _ _ n).2 hd

/-- C8 amended, evaluated on the two 4-gons of radius 10 at (0,0) and (10,0):
the swapped call reports a collision with the same depth. -/
theorem detectCollision_antisymmetry_witness :
    (detectCollision refLib (sqAt ⟨10, 0⟩) (sqAt ⟨0, 0⟩) ⟨0, 0⟩).overlaps = true ∧
    (detectCollision refLib (sqAt ⟨10, 0⟩) (sqAt ⟨0, 0⟩) ⟨0, 0⟩).minPenetration =
      (detectCollision refLib (sqAt ⟨0, 0⟩) (sqAt ⟨10, 0⟩) ⟨0, 0⟩).minPenetration :=
  have h := detectCollision_antisymmetry refLib (sqAt ⟨0, 0⟩) (sqAt ⟨10, 0⟩) ⟨0, 0⟩ ⟨0, 0⟩
    (by rw [candidateAxes_sq]; simp [sqAxes])
    (by
      rw [candidateAxes_sq, worldVertices_sq, worldVertices_sq]
      exact fun n hn => sq_near_depth_lt n hn)
    (by
      rw [detectCollision, candidateAxes_sq, worldVertices_sq, worldVertices_sq]
      exact sq_near_overlaps _ _)
  ⟨h.1, h.2.1⟩

/-- C9 as stated fails: the 4-gon of radius 10 against an identical 4-gon at
the same place gives a collision whose depth is the side-to-side width of the
square (about 14.14), not the diameter 20. -/
theorem detectCollision_identical_depth_counterexample :
    (sqAt ⟨0, 0⟩).getRadius refLib = some 10 ∧
    (detectCollision refLib (sqAt ⟨0, 0⟩) (sqAt ⟨0, 0⟩) ⟨0, 0⟩).overlaps = true ∧
    (detectCollision refLib (sqAt ⟨0, 0⟩) (sqAt ⟨0, 0⟩) ⟨0, 0⟩).minPenetration < 2 * 10 := by
  refine ⟨getRadius_sq _, by rw [detect_sq_same], ?_⟩
  rw [detect_sq_same]
  norm_num

/-- C9, amended: a body whose candidate axes are all finite (as for a regular
polygon with at least 3 vertices and a positive radius), run against an
identical body at the same position and rotation, gives a collision; within the
float range the returned depth is the least extent `maxA - minA` of the body
over the candidate axes (its width across the narrowest edge normal). -/
theorem detectCollision_identical_depth (lib : FloatLib ℚ) (P : Polygon ℚ) (ax : Vec2 ℚ)
    (hne : candidateAxes lib P P ≠ [])
    (hfin : ∀ a ∈ candidateAxes lib P P, a ≠ none)
    (hb : ∀ n, some n ∈ candidateAxes lib P P →
      (projRange (worldVertices lib P) n).2 - (projRange (worldVertices lib P) n).1 ≤ FLT_MAX) :
    (detectCollision lib P P ax).overlaps = true ∧
    (∃ n, some n ∈ candidateAxes lib P P ∧
      (detectCollision lib P P ax).minPenetration =
        (projRange (worldVertices lib P) n).2 - (projRange (worldVertices lib P) n).1) ∧
    (∀ n, some n ∈ candidateAxes lib P P →
      (detectCollision lib P P ax).minPenetration ≤
        (projRange (worldVertices lib P) n).2 - (projRange (worldVertices lib P) n).1) := by
  have hV := worldVertices_ne_nil_of_axes lib P hne
  have hov := detect_self_overlaps lib P ax hne hfin
  obtain ⟨⟨n, hn, e⟩, hle⟩ := axisLoop_minPenetration _ _ _ ax hne
    (fun n hn => by rw [penetrationOn_self _ _ hV]; exact hb n hn) hov
  refine ⟨hov, ⟨n, hn, ?_⟩, ?_⟩
  · rw [← penetrationOn_self _ _ hV]; exact e
  · intro m hm
    rw [← penetrationOn_self _ _ hV]; exact hle m hm

/-- C9 amended, evaluated on the 4-gon of radius 10. -/
theorem detectCollision_identical_depth_witness :
    (detectCollision refLib (sqAt ⟨0, 0⟩) (sqAt ⟨0, 0⟩) ⟨0, 0⟩).overlaps = true ∧
    (∃ n, some n ∈ candidateAxes refLib (sqAt ⟨0, 0⟩) (sqAt ⟨0, 0⟩) ∧
      (detectCollision refLib (sqAt ⟨0, 0⟩) (sqAt ⟨0, 0⟩) ⟨0, 0⟩).minPenetration =
        (projRange (worldVertices refLib (sqAt ⟨0, 0⟩)) n).2 -
          (projRange (worldVertices refLib (sqAt ⟨0, 0⟩)) n).1) ∧
    (∀ n, some n ∈ candidateAxes refLib (sqAt ⟨0, 0⟩) (sqAt ⟨0, 0⟩) →
      (detectCollision refLib (sqAt ⟨0, 0⟩) (sqAt ⟨0, 0⟩) ⟨0, 0⟩).minPenetration ≤
        (projRange (worldVertices refLib (sqAt ⟨0, 0⟩)) n).2 -
          (projRange (worldVertices refLib (sqAt ⟨0, 0⟩)) n).1) :=
  detectCollision_identical_depth refLib (sqAt ⟨0, 0⟩) ⟨0, 0⟩
    (by rw [candidateAxes_sq]; simp [sqAxes])
    (by rw [candidateAxes_sq]; simp [sqAxes])
    (by
      rw [candidateAxes_sq, worldVertices_sq]
      intro n hn
      simp only [sqAxes, List.mem_cons, List.mem_singleton, List.not_mem_nil, or_false,
        Option.some.injEq] at hn
      rcases hn with rfl | rfl | rfl | rfl <;> norm_num [projRange, sqVerts, dot, FLT_MAX])

/-- C10 as stated fails: the 3-gon of radius 2 against an identical 3-gon at
the same place gives a collision, and the returned axis is not in the candidate
axis set; this holds for every iteration order of the set (the returned axis is
a reversed edge normal, and a 3-gon has no two opposite edge normals). -/
theorem detectCollision_identical_axis_counterexample :
    (detectCollision refLib triBody triBody ⟨0, 0⟩).overlaps = true ∧
    some (detectCollision refLib triBody triBody ⟨0, 0⟩).penetrationAxis ∉
      candidateAxes refLib triBody triBody ∧
    (∀ axes' : List (Option (Vec2 ℚ)), axes'.Perm (candidateAxes refLib triBody triBody) →
      ∀ ax' : Vec2 ℚ,
        some (axisLoop (worldVertices refLib triBody) (worldVertices refLib triBody) axes'
          FLT_MAX ax').penetrationAxis ∉ axes') := by
  have hne : candidateAxes refLib triBody triBody ≠ [] := by rw [candidateAxes_tri]; simp
  have hfin : ∀ a ∈ candidateAxes refLib triBody triBody, a ≠ none := by
    rw [candidateAxes_tri]; simp
  have hov := detect_self_overlaps refLib triBody ⟨0, 0⟩ hne hfin
  have key : ∀ axes' : List (Option (Vec2 ℚ)), axes'.Perm (candidateAxes refLib triBody triBody) →
      ∀ ax' : Vec2 ℚ,
        some (axisLoop (worldVertices refLib triBody) (worldVertices refLib triBody) axes'
          FLT_MAX ax').penetrationAxis ∉ axes' := by
    intro axes' hp ax'
    have hov' : (axisLoop (worldVertices refLib triBody) (worldVertices refLib triBody) axes'
        FLT_MAX ax').overlaps = true := by
      rw [axisLoop_overlaps_perm _ _ _ _ hp FLT_MAX FLT_MAX ⟨0, 0⟩ ax']; exact hov
    obtain ⟨_, h2, h3⟩ := axisLoop_true_spec _ _ _ FLT_MAX ax' hov'
    rcases h3 with ⟨h3, _⟩ | ⟨n, hn, _, _, h4⟩
    · exfalso
      have hne' : axes' ≠ [] := fun e => hne (by simpa [e] using hp.symm)
      obtain ⟨a, ha⟩ := List.exists_mem_of_ne_nil _ hne'
      obtain ⟨n, rfl⟩ := axisLoop_true_finite _ _ _ FLT_MAX ax' hov' a ha
      have := h2 n ha
      rw [h3] at this
      exact absurd (tri_depth_lt n (hp.mem_iff.mp ha)) (not_lt.mpr this)
    · rw [h4, signedAxis_self]
      intro hmem
      exact tri_neg_not_mem n (hp.mem_iff.mp hn) (hp.mem_iff.mp hmem)
  exact ⟨hov, key _ (List.Perm.refl _) _, key⟩

/-- C10, amended: a body whose candidate axes are all finite (as for a regular
polygon with at least 3 vertices and a positive radius), run against an
identical body at the same position and rotation, gives a collision whose
returned axis is the reverse `n * -1` of a member `n` of the candidate axis set
whose extent is the returned depth (`minB = minA` on every axis, so the sign is
always flipped); it is a member itself only if the set holds the reverse of
`n` as well. -/
theorem detectCollision_identical_axis (lib : FloatLib ℚ) (P : Polygon ℚ) (ax : Vec2 ℚ)
    (hne : candidateAxes lib P P ≠ [])
    (hfin : ∀ a ∈ candidateAxes lib P P, a ≠ none)
    (hb : ∀ n, some n ∈ candidateAxes lib P P →
      (projRange (worldVertices lib P) n).2 - (projRange (worldVertices lib P) n).1 < FLT_MAX) :
    (detectCollision lib P P ax).overlaps = true ∧
    ∃ n, some n ∈ candidateAxes lib P P ∧
      (detectCollision lib P P ax).penetrationAxis = ⟨-n.x, -n.y⟩ ∧
      (detectCollision lib P P ax).minPenetration =
        (projRange (worldVertices lib P) n).2 - (projRange (worldVertices lib P) n).1 := by
  have hV := worldVertices_ne_nil_of_axes lib P hne
  have hov := detect_self_overlaps lib P ax hne hfin
  refine ⟨hov, ?_⟩
  obtain ⟨_, h2, h3⟩ := axisLoop_true_spec _ _ _ FLT_MAX ax hov
  rcases h3 with ⟨h3, _⟩ | ⟨n, hn, _, h3, h4⟩
  · exfalso
    obtain ⟨a, ha⟩ := List.exists_mem_of_ne_nil _ hne
    obtain ⟨n, rfl⟩ := axisLoop_true_finite _ _ _ FLT_MAX ax hov a ha
    have := h2 n ha
    rw [h3, penetrationOn_self _ _ hV] at this
    exact absurd (hb n ha) (not_lt.mpr this)
  · refine ⟨n, hn, ?_, ?_⟩
    · rw [← signedAxis_self (worldVertices lib P) n]; exact h4
    · rw [← penetrationOn_self _ _ hV]; exact h3

/-- C10 amended, evaluated on the 4-gon of radius 10. -/
theorem detectCollision_identical_axis_witness :
    (detectCollision refLib (sqAt ⟨0, 0⟩) (sqAt ⟨0, 0⟩) ⟨0, 0⟩).overlaps = true ∧
    ∃ n, some n ∈ candidateAxes refLib (sqAt ⟨0, 0⟩) (sqAt ⟨0, 0⟩) ∧
      (detectCollision refLib (sqAt ⟨0, 0⟩) (sqAt ⟨0, 0⟩) ⟨0, 0⟩).penetrationAxis =
        ⟨-n.x, -n.y⟩ ∧
      (detectCollision refLib (sqAt ⟨0, 0⟩) (sqAt ⟨0, 0⟩) ⟨0, 0⟩).minPenetration =
        (projRange (worldVertices refLib (sqAt ⟨0, 0⟩)) n).2 -
          (projRange (worldVertices refLib (sqAt ⟨0, 0⟩)) n).1 :=
  detectCollision_identical_axis refLib (sqAt ⟨0, 0⟩) ⟨0, 0⟩
    (by rw [candidateAxes_sq]; simp [sqAxes])
    (by rw [candidateAxes_sq]; simp [sqAxes])
    (by
      rw [candidateAxes_sq, worldVertices_sq]
      intro n hn
      simp only [sqAxes, List.mem_cons, List.mem_singleton, List.not_mem_nil, or_false,
        Option.some.injEq] at hn
      rcases hn with rfl | rfl | rfl | rfl <;> norm_num [projRange, sqVerts, dot, FLT_MAX])

/-- C13 as stated fails: for a vertex count of 0 the loop body runs once and
`getNumVertecies` returns 1; for a vertex count of 629 the step is below the
0.01 margin and `getNumVertecies` returns 628. -/
theorem getNumVertecies_counterexample :
    (Polygon.new refLib 10 0 white).getNumVertecies = 1 ∧
    (Polygon.new refLib 10 629 white).getNumVertecies = 628 := by
  constructor
  · apply getNumVertecies_eq _ _ _ (by norm_num)
    show (outline refLib 10 0 white).length = 1 + 1
    rw [outline_length, genLoop_length_zero]
  · apply getNumVertecies_eq _ _ _ (by norm_num)
    show (outline refLib 10 629 white).length = 628 + 1
    rw [outline_length, genLoop_length_629 refLib (fun _ _ => rfl)]

/-- C13, amended: for every radius and every vertex count `n` from 1 to 618,
after construction with `n` and after `reset(radius, n)`, `getNumVertecies`
returns exactly `n`: the loop produces `n` outline points before the closing
duplicate is appended, also when every `theta += step` is rounded, with an
error of at most `1 / 4000000` on a sum of at most 8 (a `float` sum below 8 is
off by at most `2 ^ (-22)`). (For `n = 0` it returns 1.) -/
theorem getNumVertecies_exact (lib : FloatLib K) (radius : K) (n : ℕ) (color : Color)
    (P : Polygon K)
    (hround : ∀ a b : K, 0 ≤ a → 0 ≤ b → a + b ≤ 8 →
      |lib.addf a b - (a + b)| ≤ 1 / 4000000)
    (h1 : 1 ≤ n) (h2 : n ≤ 618) :
    (Polygon.new lib radius n color).getNumVertecies = n ∧
    (P.reset lib radius n).getNumVertecies = n ∧
    (Polygon.new lib radius n color).m_vertecies.length = n + 1 ∧
    (Polygon.new lib radius 0 color).getNumVertecies = 1 := by
  have hlen : ∀ c : Color, (outline lib radius n c).length = n + 1 := by
    intro c
    rw [outline_length, genLoop_length_rounded lib radius n c hround h1 h2]
  have hn : n < 2 ^ 64 := lt_of_le_of_lt h2 (by norm_num)
  refine ⟨getNumVertecies_eq _ _ (hlen color) hn, getNumVertecies_eq _ _ (hlen P.m_color) hn,
    hlen color, ?_⟩
  apply getNumVertecies_eq _ _ _ (by norm_num)
  show (outline lib radius 0 color).length = 1 + 1
  rw [outline_length, genLoop_length_zero]

/-- C13 amended, evaluated for the 4-gon of radius 10. -/
theorem getNumVertecies_exact_witness :
    (Polygon.new refLib 10 4 white).getNumVertecies = 4 ∧
    ((sqAt ⟨3, 4⟩).reset refLib 10 4).getNumVertecies = 4 ∧
    (Polygon.new refLib 10 4 white).m_vertecies.length = 4 + 1 ∧
    (Polygon.new refLib 10 0 white).getNumVertecies = 1 :=
  getNumVertecies_exact refLib 10 4 white (sqAt ⟨3, 4⟩)
    (by intro a b _ _ _; simp [refLib]) (by norm_num) (by norm_num)

/-- C15: `reset` changes only the stored outline: position, rotation, linear
velocity, angular velocity and colour keep their values, and the new outline is
the one a fresh construction with the same radius, vertex count and colour
stores. -/
theorem reset_frame (lib : FloatLib K) (P : Polygon K) (radius : K) (numVertecies : ℕ) :
    (P.reset lib radius numVertecies).position = P.position ∧
    (P.reset lib radius numVertecies).rotation = P.rotation ∧
    (P.reset lib radius numVertecies).m_velocity = P.m_velocity ∧
    (P.reset lib radius numVertecies).m_angularVelocity = P.m_angularVelocity ∧
    (P.reset lib radius numVertecies).m_color = P.m_color ∧
    (P.reset lib radius numVertecies).m_vertecies =
      (Polygon.new lib radius numVertecies P.m_color).m_vertecies :=
  ⟨rfl, rfl, rfl, rfl, rfl, rfl⟩

/-- C16 as stated fails: the body built with vertex count 1 has one edge whose
two world-space endpoints coincide; `getVertexData` normalizes it all the same
and the non-finite result is inserted into the normal set. -/
theorem getVertexData_guard_counterexample :
    pointBody.worldOutline refLib = [⟨10, 0⟩, ⟨10, 0⟩] ∧
    (pointBody.getVertexData refLib [] []).1 = [none] := by
  refine ⟨worldOutline_point, ?_⟩
  rw [Polygon.getVertexData, vertexDataLoop_point]

/-- C16, amended: `getVertexData` has no guard: it applies `normalize` to the
edge vector of every edge of the world outline and inserts the result, so no
edge is skipped; an edge whose two endpoints coincide contributes a non-finite
axis (for a square root that is 0 at 0), and a body with such an axis makes
`detectCollision` return false. -/
theorem getVertexData_no_guard (lib : FloatLib ℚ) (P : Polygon ℚ) (s : VectorSet ℚ)
    (vs : List (Vec2 ℚ)) :
    (∀ (l1 : List (Vec2 ℚ)) (a b : Vec2 ℚ) (l2 : List (Vec2 ℚ)),
      P.worldOutline lib = l1 ++ a :: b :: l2 →
        normalize lib (perpendicular (b.sub a)) ∈ (P.getVertexData lib s vs).1) ∧
    (lib.sqrtf 0 = 0 →
      ∀ (l1 : List (Vec2 ℚ)) (v : Vec2 ℚ) (l2 : List (Vec2 ℚ)),
        P.worldOutline lib = l1 ++ v :: v :: l2 → none ∈ (P.getVertexData lib s vs).1) ∧
    (∀ (Q : Polygon ℚ) (ax : Vec2 ℚ), none ∈ (P.getVertexData lib [] []).1 →
      (detectCollision lib P Q ax).overlaps = false) := by
  have h1 : ∀ (l1 : List (Vec2 ℚ)) (a b : Vec2 ℚ) (l2 : List (Vec2 ℚ)),
      P.worldOutline lib = l1 ++ a :: b :: l2 →
        normalize lib (perpendicular (b.sub a)) ∈ (P.getVertexData lib s vs).1 := by
    intro l1 a b l2 h
    rw [Polygon.getVertexData, mem_vertexDataLoop, h]
    exact Or.inr (edgeNormals_append_mem lib l1 a b l2)
  refine ⟨h1, ?_, ?_⟩
  · intro h0 l1 v l2 h
    have := h1 l1 v v l2 h
    rwa [normalize_zero lib h0] at this
  · intro Q ax hn
    rw [detectCollision, axisLoop_false_iff]
    refine ⟨none, ?_, separatedOn_none _ _⟩
    rw [Polygon.getVertexData, mem_vertexDataLoop] at hn
    rw [mem_candidateAxes]
    rcases hn with hn | hn
    · simp at hn
    · exact Or.inl hn

/-- C16 amended, evaluated on the body built with vertex count 1: its
coinciding edge puts a non-finite axis into the set. -/
theorem getVertexData_no_guard_witness :
    none ∈ (pointBody.getVertexData refLib [] []).1 :=
  (getVertexData_no_guard refLib pointBody [] []).2.1 (by norm_num [refLib, refSqrt])
    [] ⟨10, 0⟩ [] worldOutline_point

/-- C19: in `contains`, run with every array read and every division checked,
no read is out of bounds and no divisor is zero, for every body with a
non-empty stored outline (as every constructed body has) and every query
point: the checked run returns the result of `contains`; the quotient is only
evaluated under the y-span condition, which forces `vn.y - vc.y` to be
non-zero. -/
theorem contains_safe (lib : FloatLib K) (P : Polygon K) (point : Vec2 K)
    (hne : P.m_vertecies ≠ []) (hlen : P.m_vertecies.length < 2 ^ 64) :
    containsChecked lib P point P.getNumVertecies P.getNumVertecies 0 false =
      some (P.contains lib point) ∧
    (∀ vc vn : Vec2 K,
      ((vc.y ≥ point.y ∧ vn.y < point.y) ∨ (vc.y < point.y ∧ vn.y ≥ point.y)) →
        vn.y - vc.y ≠ 0) := by
  constructor
  · have hpos : 0 < P.m_vertecies.length := List.length_pos.mpr hne
    have hnum : P.getNumVertecies = P.m_vertecies.length - 1 :=
      getNumVertecies_eq P (P.m_vertecies.length - 1) (by omega) (by omega)
    rw [hnum]
    have := containsChecked_eq lib P point (P.m_vertecies.length - 1) 0 false (by omega)
    rw [this, List.drop_zero]
    rfl
  · rintro vc vn (⟨h1, h2⟩ | ⟨h1, h2⟩)
    · exact ne_of_lt (by linarith)
    · exact ne_of_gt (by linarith)

/-- C19, evaluated on the 4-gon of radius 10 at (3,4) and the query point
(1,1). -/
theorem contains_safe_witness :
    containsChecked refLib (sqAt ⟨3, 4⟩) ⟨1, 1⟩ (sqAt ⟨3, 4⟩).getNumVertecies
        (sqAt ⟨3, 4⟩).getNumVertecies 0 false =
      some ((sqAt ⟨3, 4⟩).contains refLib ⟨1, 1⟩) ∧
    (∀ vc vn : Vec2 ℚ,
      ((vc.y ≥ (1 : ℚ) ∧ vn.y < (1 : ℚ)) ∨ (vc.y < (1 : ℚ) ∧ vn.y ≥ (1 : ℚ))) →
        vn.y - vc.y ≠ 0) :=
  contains_safe refLib (sqAt ⟨3, 4⟩) ⟨1, 1⟩
    (by
      have e : (sqAt ⟨3, 4⟩).m_vertecies = outline refLib 10 4 white := rfl
      rw [e, outline_sq]; simp)
    (by
      have e : (sqAt ⟨3, 4⟩).m_vertecies = outline refLib 10 4 white := rfl
      rw [e, outline_sq]; norm_num)

end SAT
